import Mathlib

/-!
Verification development for the transition-oracle of the `cicl2018/ucca`
repository.  The embedded code is `src/parser/oracle.py` (class `Oracle`,
methods `__init__` and `get_action`).  The gold graph data model (ucca
core nodes/edges), the `Action` vocabulary (`action.py`), the parser
`State` (`state.py`) and the configuration flag (`config.py`) are not
part of `src/`; where they are needed they are modelled from the spec,
as marked in the doc comments.

Modelling conventions:
* Python `set` containers (`edges_remaining`, `nodes_remaining`, and the
  derived `incoming`/`outgoing` sets) are embedded as Lean lists.  The
  list order stands for the incidental iteration order of the Python
  set; `set.remove` on a present element is `List.erase`.
* `set.remove` on an absent element raises `KeyError` in Python.  The
  only removal in `get_action` whose argument can be absent is the
  removal of the implicit child's ID in the IMPLICIT branch; it is
  embedded as a guarded removal producing the `keyError` outcome.
* The `raise Exception("No action is possible ...")` branch is embedded
  as the `noAction` outcome carrying the same diagnostic data that the
  Python exception message interpolates (stack, buffer, and the
  oracle's remaining node IDs and edges, cf. `Oracle.str`).
-/

namespace UCCA

/-- Modelled from the spec (§3, §6): a gold graph node of the ucca core
(`ucca/core.py` is not under `src/`): a stable ID and the boolean
`implicit` attribute.  The node tag plays no role in `get_action` and is
omitted. -/
structure Node where
  ID : String
  implicit : Bool
deriving DecidableEq

/-- Modelled from the spec (§3): a gold edge: parent node, child node, a
label (`tag`), and the boolean `remote` attribute
(`edge.attrib.get("remote")`). -/
structure Edge where
  parent : Node
  child : Node
  tag : String
  remote : Bool
deriving DecidableEq

/-- Modelled from the spec (§3): an element of the parser state's stack or
buffer (`state.py` is not under `src/`): a constructed unit carrying its
ID (`node_id`) and the gold node it corresponds to (`orig_node`).
`get_action` reads exactly these two attributes. -/
structure StateNode where
  node_id : String
  orig_node : Node
deriving DecidableEq

/-- Modelled from the spec (§2, §3): the parser `State` as read by
`get_action`: the stack (head = top, i.e. Python `stack[-1]`) and the
buffer (head = front, i.e. Python `buffer[0]`). -/
structure ParserState where
  stack : List StateNode
  buffer : List StateNode
deriving DecidableEq

/-- The Oracle's internal remaining-sets (`self.edges_remaining`,
`self.nodes_remaining` of `Oracle.__init__`), embedded as lists standing
for Python sets (see module comment). -/
structure OracleState where
  edges_remaining : List Edge
  nodes_remaining : List String
deriving DecidableEq

/-- Modelled from the spec (§6): the gold passage as consumed by
`Oracle.__init__`: the layer-1 (non-terminal) nodes, the terminal
nodes, and every edge of every node. -/
structure Passage where
  layer1 : List Node
  terminals : List Node
  edges : List Edge
deriving DecidableEq

/-- `ROOT_ID = "1.1"`, ID of the root node (oracle.py line 5). -/
def ROOT_ID : String := "1.1"

/-- Modelled from the spec (§4.1, §6): the `Action` vocabulary of
`action.py` (not under `src/`).  Binary edge actions carry the edge tag;
`SWAP` carries the optional compound distance (`None` when compound swap
is disabled); `NODE`/`IMPLICIT` carry the tag and the created gold
node. -/
inductive Action where
  | SHIFT
  | REDUCE
  | FINISH
  | SWAP (distance : Option Nat)
  | RIGHT_EDGE (tag : String)
  | RIGHT_REMOTE (tag : String)
  | LEFT_EDGE (tag : String)
  | LEFT_REMOTE (tag : String)
  | NODE (tag : String) (node : Node)
  | IMPLICIT (tag : String) (node : Node)
deriving DecidableEq

/-- The two failure outcomes of `get_action`: the explicit
`raise Exception("No action is possible\n" + state.str + self.str)`
(with its diagnostic payload), and the Python `KeyError` of the
unguarded `self.nodes_remaining.remove(node.ID)` in the IMPLICIT
branch. -/
inductive OracleErr where
  | noAction (stack : List StateNode) (buffer : List StateNode)
      (nodes_remaining : List String) (edges_remaining : List Edge)
  | keyError
deriving DecidableEq

/-- `self.edges_remaining.intersection(state.stack[-1].orig_node.incoming)`:
the remaining edges whose child is the given gold node (a ucca core
node's `incoming` holds exactly the graph edges with that node as
child). -/
def incomingOf (edges : List Edge) (n : Node) : List Edge :=
  edges.filter (fun e => e.child.ID == n.ID)

/-- `self.edges_remaining.intersection(state.stack[-1].orig_node.outgoing)`:
the remaining edges whose parent is the given gold node. -/
def outgoingOf (edges : List Edge) (n : Node) : List Edge :=
  edges.filter (fun e => e.parent.ID == n.ID)

/-- `related = set([edge.child.ID for edge in outgoing] +
[edge.parent.ID for edge in incoming])` (oracle.py lines 34-35). -/
def relatedOf (incoming outgoing : List Edge) : List String :=
  outgoing.map (fun e => e.child.ID) ++ incoming.map (fun e => e.parent.ID)

/-- `state.buffer and state.buffer[0].node_id in related`
(oracle.py line 37). -/
def bufferPref (buffer : List StateNode) (related : List String) : Bool :=
  match buffer with
  | [] => false
  | b :: _ => decide (b.node_id ∈ related)

/-- The binary-edge check (oracle.py lines 41-47): first edge of
`incoming` with `e.parent.ID == state.stack[-2].node_id` (direction
RIGHT, flag `true`), else first edge of `outgoing` with
`e.child.ID == state.stack[-2].node_id` (direction LEFT, flag
`false`). -/
def binaryChoice (incoming outgoing : List Edge) (s1 : StateNode) :
    Option (Bool × Edge) :=
  match incoming.find? (fun e => e.parent.ID == s1.node_id) with
  | some e => some (true, e)
  | none =>
    match outgoing.find? (fun e => e.child.ID == s1.node_id) with
    | some e => some (false, e)
    | none => none

/-- `Action(prefix + ("-REMOTE" if edge.attrib.get("remote") else "-EDGE"),
edge.tag)` (oracle.py lines 49-50); `dir = true` is RIGHT. -/
def mkBinaryAction (dir : Bool) (e : Edge) : Action :=
  if dir then
    if e.remote then .RIGHT_REMOTE e.tag else .RIGHT_EDGE e.tag
  else
    if e.remote then .LEFT_REMOTE e.tag else .LEFT_EDGE e.tag

/-- The `while` guard of the swap-distance loop (oracle.py lines 54-57):
`len(state.stack) > swap_distance + 1 and (Config().compound_swap or
swap_distance < 1) and related.issubset(s.node_id for s in
state.stack[:-swap_distance-2])`.  With the stack embedded top-first,
Python `stack[:-d-2]` is `stack.drop (d+2)`. -/
def loopCond (compound : Bool) (stack : List StateNode)
    (related : List String) (d : Nat) : Bool :=
  decide (stack.length > d + 1) && (compound || decide (d < 1)) &&
    related.all (fun x => (stack.drop (d + 2)).any (fun s => s.node_id == x))

/-- The swap-distance `while` loop (oracle.py lines 53-58), with explicit
iteration fuel.  The guard requires `stack.length > d + 1`, so the loop
performs fewer than `stack.length` iterations; `get_action` supplies
`stack.length` as fuel, which therefore never runs out. -/
def swapLoop (compound : Bool) (stack : List StateNode)
    (related : List String) : Nat → Nat → Nat
  | 0, d => d
  | fuel + 1, d =>
    if loopCond compound stack related d then
      swapLoop compound stack related fuel (d + 1)
    else d

/-- The NODE generator (oracle.py lines 63-64): first edge of `incoming`
with `e.parent.ID in self.nodes_remaining and not
e.attrib.get("remote")`. -/
def nodeChoice (incoming : List Edge) (nodes_remaining : List String) :
    Option Edge :=
  incoming.find? (fun e => decide (e.parent.ID ∈ nodes_remaining) && !e.remote)

/-- The IMPLICIT generator (oracle.py lines 66-67): first edge of
`outgoing` with `e.child.attrib.get("implicit")`. -/
def implicitChoice (outgoing : List Edge) : Option Edge :=
  outgoing.find? (fun e => e.child.implicit)

/-- The tail of `get_action` (oracle.py lines 75-78): `if not
state.buffer: raise Exception("No action is possible\n" + state.str("\n")
+ "\n" + self.str("\n"))` — the payload mirrors the data interpolated
into the message — else `return SHIFT`. -/
def shiftOrFail (os : OracleState) (st : ParserState) :
    Except OracleErr (Action × OracleState) :=
  match st.buffer with
  | [] => .error (.noAction st.stack st.buffer os.nodes_remaining os.edges_remaining)
  | _ => .ok (.SHIFT, os)

/-- `Oracle.get_action` (oracle.py lines 19-78).  The in-place updates of
`self.edges_remaining` / `self.nodes_remaining` are embedded by returning
the updated `OracleState` beside the chosen `Action`; the compound-swap
configuration flag (`config.py`, not under `src/`) is an explicit
argument. -/
def get_action (compound : Bool) (os : OracleState) (st : ParserState) :
    Except OracleErr (Action × OracleState) :=
  if os.edges_remaining.isEmpty then .ok (.FINISH, os)
  else
    match st.stack with
    | [] => shiftOrFail os st
    | s0 :: rest =>
      let incoming := incomingOf os.edges_remaining s0.orig_node
      let outgoing := outgoingOf os.edges_remaining s0.orig_node
      if incoming.isEmpty && outgoing.isEmpty then .ok (.REDUCE, os)
      else
        let related := relatedOf incoming outgoing
        if bufferPref st.buffer related then .ok (.SHIFT, os)
        else
          let binarySwap : Option (Except OracleErr (Action × OracleState)) :=
            match rest with
            | [] => none
            | s1 :: _ =>
              match binaryChoice incoming outgoing s1 with
              | some (dir, e) =>
                some (.ok (mkBinaryAction dir e,
                  ⟨os.edges_remaining.erase e, os.nodes_remaining⟩))
              | none =>
                let sd := swapLoop compound st.stack related st.stack.length 0
                if sd ≠ 0 then
                  some (.ok (.SWAP (if compound then some sd else none), os))
                else none
          match binarySwap with
          | some r => r
          | none =>
            match nodeChoice incoming os.nodes_remaining with
            | some e =>
              .ok (.NODE e.tag e.parent,
                ⟨os.edges_remaining.erase e, os.nodes_remaining.erase e.parent.ID⟩)
            | none =>
              match implicitChoice outgoing with
              | some e =>
                if e.child.ID ∈ os.nodes_remaining then
                  .ok (.IMPLICIT e.tag e.child,
                    ⟨os.edges_remaining.erase e, os.nodes_remaining.erase e.child.ID⟩)
                else .error .keyError
              | none => shiftOrFail os st

/-- `Oracle.__init__` (oracle.py lines 14-17): `nodes_remaining` is the
set of layer-1 node IDs minus `ROOT_ID`; `edges_remaining` is every edge
of every node. -/
def oracleInit (p : Passage) : OracleState :=
  ⟨p.edges, (p.layer1.map Node.ID).filter (fun i => i ≠ ROOT_ID)⟩

section Driver

/-!  The driver loop and the parser-state transitions are external to
`src/` (the spec's §2 "Driver" and §4.1 effect column); they are
modelled from the spec below, for the replay claim C1.  -/

/-- A reconstructed edge, written directly in gold-ID space via the
`orig_node` correspondence (the "renaming of node IDs" of C1): parent
ID, child ID and tag.  `remote` is an edge attribute, not part of edge
identity (spec §3). -/
structure CEdge where
  parent : String
  child : String
  tag : String
deriving DecidableEq

/-- The gold-ID key of a gold edge, for comparison with reconstructed
edges. -/
def edgeKey (e : Edge) : CEdge :=
  ⟨e.parent.ID, e.child.ID, e.tag⟩

/-- Modelled from the spec (§4.1 effect column): the edge created in the
graph under construction by one action, computed from the action and the
stack it was emitted at (top-first; `s0` = top, `s1` = second).
SHIFT/REDUCE/SWAP/FINISH create no edge. -/
def createdOf (a : Action) (st : ParserState) : List CEdge :=
  match a, st.stack with
  | .NODE t n, s0 :: _ => [⟨n.ID, s0.orig_node.ID, t⟩]
  | .IMPLICIT t n, s0 :: _ => [⟨s0.orig_node.ID, n.ID, t⟩]
  | .RIGHT_EDGE t, s0 :: s1 :: _ => [⟨s1.node_id, s0.orig_node.ID, t⟩]
  | .RIGHT_REMOTE t, s0 :: s1 :: _ => [⟨s1.node_id, s0.orig_node.ID, t⟩]
  | .LEFT_EDGE t, s0 :: s1 :: _ => [⟨s0.orig_node.ID, s1.node_id, t⟩]
  | .LEFT_REMOTE t, s0 :: s1 :: _ => [⟨s0.orig_node.ID, s1.node_id, t⟩]
  | _, _ => []

/-- Modelled from the spec (§4.1 effect column): the parser-state
transition of each action.  SHIFT moves the buffer front onto the stack;
REDUCE pops; NODE pushes the created parent above the top; IMPLICIT
creates an unshifted node; SWAP(d) removes the element at position
d+2 from the top (Python `stack[-d-2]`, d defaulting to 1 when no
distance is carried) and puts it back at the buffer front; binary edge
actions and FINISH leave the state unchanged. -/
def applyAction (a : Action) (st : ParserState) : ParserState :=
  match a with
  | .SHIFT =>
    match st.buffer with
    | [] => st
    | b :: bs => ⟨b :: st.stack, bs⟩
  | .REDUCE => ⟨st.stack.tail, st.buffer⟩
  | .NODE _ n => ⟨⟨n.ID, n⟩ :: st.stack, st.buffer⟩
  | .SWAP d =>
    let k := d.getD 1 + 1
    match st.stack[k]? with
    | some x => ⟨st.stack.eraseIdx k, x :: st.buffer⟩
    | none => st
  | _ => st

/-- Modelled from the spec (§3, §8): a fresh parser state: the synthetic
root (excluded from `nodes_remaining` because it already exists) is on
the stack, the terminals fill the buffer. -/
def initState (p : Passage) : ParserState :=
  ⟨[⟨ROOT_ID, ⟨ROOT_ID, false⟩⟩], p.terminals.map (fun n => ⟨n.ID, n⟩)⟩

/-- Outcome of replaying the oracle's action sequence. -/
inductive RunResult where
  | finished (created : List CEdge)
  | failed (e : OracleErr)
  | outOfFuel
deriving DecidableEq

/-- Modelled from the spec (§2 "Driver"): repeatedly query `get_action`,
apply the action to the state, and record the created edges, until
FINISH (or failure), with explicit fuel. -/
def runOracle (compound : Bool) :
    Nat → OracleState → ParserState → List CEdge → RunResult
  | 0, _, _, _ => .outOfFuel
  | fuel + 1, os, st, created =>
    match get_action compound os st with
    | .error e => .failed e
    | .ok (a, os') =>
      if a = .FINISH then .finished created
      else runOracle compound fuel os' (applyAction a st) (created ++ createdOf a st)

end Driver

/-- The serializable discriminator of an action (spec §6): which transition
fired, with direction for binary edges and distance for SWAP, but without
the edge-dependent payload (tag, remote flag, created node). -/
inductive ActionKind where
  | SHIFT
  | REDUCE
  | FINISH
  | SWAP (distance : Option Nat)
  | RIGHT
  | LEFT
  | NODE
  | IMPLICIT
deriving DecidableEq

/-- The discriminator of an `Action`. -/
def Action.kind : Action → ActionKind
  | .SHIFT => .SHIFT
  | .REDUCE => .REDUCE
  | .FINISH => .FINISH
  | .SWAP d => .SWAP d
  | .RIGHT_EDGE _ => .RIGHT
  | .RIGHT_REMOTE _ => .RIGHT
  | .LEFT_EDGE _ => .LEFT
  | .LEFT_REMOTE _ => .LEFT
  | .NODE _ _ => .NODE
  | .IMPLICIT _ _ => .IMPLICIT

/-- The actions that discharge one gold edge (C2): NODE, IMPLICIT and the
four binary edge actions. -/
def Action.isEdgeAction : Action → Bool
  | .NODE _ _ => true
  | .IMPLICIT _ _ => true
  | .RIGHT_EDGE _ => true
  | .RIGHT_REMOTE _ => true
  | .LEFT_EDGE _ => true
  | .LEFT_REMOTE _ => true
  | _ => false

/-- Abbreviation: the remaining edges incoming to the top of stack. -/
def incE (os : OracleState) (s0 : StateNode) : List Edge :=
  incomingOf os.edges_remaining s0.orig_node

/-- Abbreviation: the remaining edges outgoing from the top of stack. -/
def outE (os : OracleState) (s0 : StateNode) : List Edge :=
  outgoingOf os.edges_remaining s0.orig_node

/-- Abbreviation: the `related` ID list for the top of stack. -/
def relE (os : OracleState) (s0 : StateNode) : List String :=
  relatedOf (incE os s0) (outE os s0)

/-- Abbreviation: the computed swap distance for the current state. -/
def sdE (c : Bool) (os : OracleState) (st : ParserState) (s0 : StateNode) : Nat :=
  swapLoop c st.stack (relE os s0) st.stack.length 0

/-- No stack-based rule of `get_action` applies (C6): the stack is empty,
or the top of stack still has incident remaining edges (so REDUCE does
not apply) yet the buffer-front preference, the binary-edge check, the
swap check and the unary NODE/IMPLICIT checks all fail. -/
def noStackRule (compound : Bool) (os : OracleState) (st : ParserState) : Prop :=
  match st.stack with
  | [] => True
  | s0 :: rest =>
    ¬(incE os s0 = [] ∧ outE os s0 = []) ∧
    bufferPref st.buffer (relE os s0) = false ∧
    (match rest with
     | [] => True
     | s1 :: _ =>
       binaryChoice (incE os s0) (outE os s0) s1 = none ∧
       sdE compound os st s0 = 0) ∧
    nodeChoice (incE os s0) os.nodes_remaining = none ∧
    implicitChoice (outE os s0) = none

/-- The kind produced by the unary NODE/IMPLICIT checks and the final
SHIFT, for `branchKind`. -/
def unaryKind (os : OracleState) (s0 : StateNode) : ActionKind :=
  match nodeChoice (incE os s0) os.nodes_remaining with
  | some _ => .NODE
  | none =>
    match implicitChoice (outE os s0) with
    | some _ => .IMPLICIT
    | none => .SHIFT

/-- The discriminator that `get_action`'s decision cascade selects,
ignoring which concrete edge is chosen inside a rule.  Proved to agree
with the kind of every successfully returned action, and to be invariant
under permutation of the remaining-edge container. -/
def branchKind (c : Bool) (os : OracleState) (st : ParserState) : ActionKind :=
  if os.edges_remaining.isEmpty then .FINISH
  else
    match st.stack with
    | [] => .SHIFT
    | s0 :: rest =>
      if (incE os s0).isEmpty && (outE os s0).isEmpty then .REDUCE
      else if bufferPref st.buffer (relE os s0) then .SHIFT
      else
        match rest with
        | [] => unaryKind os s0
        | s1 :: _ =>
          match binaryChoice (incE os s0) (outE os s0) s1 with
          | some (dir, _) => if dir then .RIGHT else .LEFT
          | none =>
            if sdE c os st s0 ≠ 0 then
              .SWAP (if c = true then some (sdE c os st s0) else none)
            else unaryKind os s0

/-- C4's reading of the swap condition at distance `d`: `related` is a
subset of the node IDs lying deeper in the stack than position `d + 2`
from the top (Python `stack[:-d-2]`, i.e. `drop (d+2)` top-first). -/
def swapCondStrict (stack : List StateNode) (related : List String) (d : Nat) : Prop :=
  ∀ x ∈ related, x ∈ (stack.drop (d + 2)).map StateNode.node_id

section ConcreteData

/-!  Concrete gold data used by the witnesses and counterexamples.  -/

/-- Root node `1.1`. -/
def rootN : Node := ⟨"1.1", false⟩

/-- Witness passage for C1: root —H→ P —T→ terminal `0.1`. -/
def passW : Passage :=
  ⟨[rootN, ⟨"1.2", false⟩], [⟨"0.1", false⟩],
   [⟨rootN, ⟨"1.2", false⟩, "H", false⟩,
    ⟨⟨"1.2", false⟩, ⟨"0.1", false⟩, "T", false⟩]⟩

/-- Counterexample passage for C1: a single gold edge root —H→ `1.3` and
no terminals; the very first `get_action` call pops the root (REDUCE)
and the second finds an empty stack and an empty buffer and raises. -/
def passF : Passage :=
  ⟨[rootN, ⟨"1.3", false⟩], [], [⟨rootN, ⟨"1.3", false⟩, "H", false⟩]⟩

/-- Counterexample passage for C9: the implicit node `1.4` has two
incoming gold edges, from `1.2` and from `1.3`. -/
def passI : Passage :=
  ⟨[rootN, ⟨"1.2", false⟩, ⟨"1.3", false⟩, ⟨"1.4", true⟩], [],
   [⟨⟨"1.2", false⟩, ⟨"1.4", true⟩, "E", false⟩,
    ⟨⟨"1.3", false⟩, ⟨"1.4", true⟩, "F", true⟩]⟩

/-- Parser state for the first C9 call: `1.2` on top of the stack. -/
def stI1 : ParserState := ⟨[⟨"1.2", ⟨"1.2", false⟩⟩], []⟩

/-- Parser state for the second C9 call: `1.3` on top of the stack and a
non-empty buffer. -/
def stI2 : ParserState := ⟨[⟨"1.3", ⟨"1.3", false⟩⟩], [⟨"0.9", ⟨"0.9", false⟩⟩]⟩

/-- The oracle state after the first C9 call: the edge from `1.2` is
discharged and `1.4` is gone from `nodes_remaining`. -/
def osI1 : OracleState :=
  ⟨[⟨⟨"1.3", false⟩, ⟨"1.4", true⟩, "F", true⟩], ["1.2", "1.3"]⟩

/-- Counterexample edge for C5: a remote gold edge whose child `1.9` is
implicit. -/
def edgeR : Edge := ⟨⟨"1.8", false⟩, ⟨"1.9", true⟩, "G", true⟩

/-- Oracle state for the C5 counterexample. -/
def osR : OracleState := ⟨[edgeR], ["1.9"]⟩

/-- Parser state for the C5 counterexample: the parent `1.8` on top. -/
def stR : ParserState := ⟨[⟨"1.8", ⟨"1.8", false⟩⟩], []⟩

/-- Oracle state for the C4 counterexample: one remaining edge from the
stack top `1.4` to the deepest stack element `1.2`. -/
def osS : OracleState := ⟨[⟨⟨"1.4", false⟩, ⟨"1.2", false⟩, "X", false⟩], []⟩

/-- Parser state for the C4 counterexample: stack `1.4` (top), `1.3`,
`1.2` (bottom). -/
def stS : ParserState :=
  ⟨[⟨"1.4", ⟨"1.4", false⟩⟩, ⟨"1.3", ⟨"1.3", false⟩⟩, ⟨"1.2", ⟨"1.2", false⟩⟩], []⟩

/-- First C8 edge: `1.2 —A→ 1.3`. -/
def edgeA : Edge := ⟨⟨"1.2", false⟩, ⟨"1.3", false⟩, "A", false⟩

/-- Second C8 edge: `1.2 —B→ 1.3`, same endpoints, different tag. -/
def edgeB : Edge := ⟨⟨"1.2", false⟩, ⟨"1.3", false⟩, "B", false⟩

/-- Parser state for C8: child `1.3` on top, parent `1.2` second. -/
def stP : ParserState :=
  ⟨[⟨"1.3", ⟨"1.3", false⟩⟩, ⟨"1.2", ⟨"1.2", false⟩⟩], []⟩

/-- Oracle state for the C7 witness: one remaining edge root —H→ `1.2`. -/
def osQ : OracleState := ⟨[⟨rootN, ⟨"1.2", false⟩, "H", false⟩], []⟩

/-- Parser state for the C7 witness: `1.2` on top, the related root at
the buffer front. -/
def stQ : ParserState :=
  ⟨[⟨"1.2", ⟨"1.2", false⟩⟩, ⟨"0.1", ⟨"0.1", false⟩⟩], [⟨"1.1", rootN⟩]⟩

/-- Parser state for the C10 witness: empty stack, non-empty buffer. -/
def stE : ParserState := ⟨[], [⟨"0.1", ⟨"0.1", false⟩⟩]⟩

end ConcreteData

/-! ## Basic lemmas about the selection helpers -/

lemma mem_incomingOf {edges : List Edge} {n : Node} {e : Edge} :
    e ∈ incomingOf edges n ↔ e ∈ edges ∧ e.child.ID = n.ID := by
  simp [incomingOf]

lemma mem_outgoingOf {edges : List Edge} {n : Node} {e : Edge} :
    e ∈ outgoingOf edges n ↔ e ∈ edges ∧ e.parent.ID = n.ID := by
  simp [outgoingOf]

lemma incomingOf_eq_nil {edges : List Edge} {n : Node} :
    incomingOf edges n = [] ↔ ∀ e ∈ edges, e.child.ID ≠ n.ID := by
  simp [incomingOf, List.filter_eq_nil_iff]

lemma outgoingOf_eq_nil {edges : List Edge} {n : Node} :
    outgoingOf edges n = [] ↔ ∀ e ∈ edges, e.parent.ID ≠ n.ID := by
  simp [outgoingOf, List.filter_eq_nil_iff]

lemma binaryChoice_some {inc out : List Edge} {s1 : StateNode} {dir : Bool} {e : Edge}
    (h : binaryChoice inc out s1 = some (dir, e)) :
    (dir = true ∧ e ∈ inc ∧ e.parent.ID = s1.node_id) ∨
    (dir = false ∧ e ∈ out ∧ e.child.ID = s1.node_id) := by
  unfold binaryChoice at h
  split at h
  · next e' hf =>
    obtain ⟨rfl, rfl⟩ : dir = true ∧ e' = e := by
      constructor <;> cases h <;> rfl
    have hm := List.mem_of_find?_eq_some hf
    have hp := List.find?_some hf
    exact Or.inl ⟨rfl, hm, by simpa using hp⟩
  · next hnone =>
    split at h
    · next e' hf =>
      obtain ⟨rfl, rfl⟩ : dir = false ∧ e' = e := by
        constructor <;> cases h <;> rfl
      have hm := List.mem_of_find?_eq_some hf
      have hp := List.find?_some hf
      exact Or.inr ⟨rfl, hm, by simpa using hp⟩
    · exact absurd h (by simp)

lemma nodeChoice_some {inc : List Edge} {ns : List String} {e : Edge}
    (h : nodeChoice inc ns = some e) :
    e ∈ inc ∧ e.parent.ID ∈ ns ∧ e.remote = false := by
  have hm := List.mem_of_find?_eq_some h
  have hp := List.find?_some h
  simp only [Bool.and_eq_true, decide_eq_true_eq, Bool.not_eq_true'] at hp
  exact ⟨hm, hp.1, hp.2⟩

lemma implicitChoice_some {out : List Edge} {e : Edge}
    (h : implicitChoice out = some e) :
    e ∈ out ∧ e.child.implicit = true := by
  unfold implicitChoice at h
  have hp := List.find?_some (p := fun e : Edge => e.child.implicit) h
  exact ⟨List.mem_of_find?_eq_some h, hp⟩

/-! ## Lemmas about the swap-distance loop -/

lemma swapLoop_le {c : Bool} {s : List StateNode} {r : List String} :
    ∀ fuel d, d ≤ swapLoop c s r fuel d := by
  intro fuel
  induction fuel with
  | zero => intro d; simp [swapLoop]
  | succ n ih =>
    intro d
    simp only [swapLoop]
    split
    · exact Nat.le_trans (Nat.le_succ d) (ih (d + 1))
    · exact Nat.le_refl d

lemma swapLoop_cond_below {c : Bool} {s : List StateNode} {r : List String} :
    ∀ fuel d k, d ≤ k → k < swapLoop c s r fuel d → loopCond c s r k = true := by
  intro fuel
  induction fuel with
  | zero =>
    intro d k hdk hk
    simp only [swapLoop] at hk
    omega
  | succ n ih =>
    intro d k hdk hk
    simp only [swapLoop] at hk
    split at hk
    · next hc =>
      rcases Nat.eq_or_lt_of_le hdk with rfl | hlt
      · exact hc
      · exact ih (d + 1) k hlt hk
    · omega

lemma swapLoop_cond_final {c : Bool} {s : List StateNode} {r : List String} :
    ∀ fuel d, s.length ≤ fuel + d → loopCond c s r (swapLoop c s r fuel d) = false := by
  intro fuel
  induction fuel with
  | zero =>
    intro d hd
    simp only [swapLoop]
    have : ¬ (s.length > d + 1) := by omega
    simp [loopCond, this]
  | succ n ih =>
    intro d hd
    simp only [swapLoop]
    split
    · exact ih (d + 1) (by omega)
    · next hc => exact Bool.not_eq_true _ ▸ (by simpa using hc)

/-! ## Branch inversion for `get_action` -/

theorem get_action_ok_cases {c : Bool} {os : OracleState} {st : ParserState}
    {a : Action} {os' : OracleState}
    (h : get_action c os st = .ok (a, os')) :
    (a = .FINISH ∧ os' = os ∧ os.edges_remaining = []) ∨
    (a = .SHIFT ∧ os' = os) ∨
    (a = .REDUCE ∧ os' = os) ∨
    ((∃ d, a = .SWAP d) ∧ os' = os) ∨
    (∃ s0 rest e dir, st.stack = s0 :: rest ∧ e ∈ os.edges_remaining ∧
      a = mkBinaryAction dir e ∧
      os' = ⟨os.edges_remaining.erase e, os.nodes_remaining⟩ ∧
      ((dir = true ∧ e.child.ID = s0.orig_node.ID ∧
          ∃ s1 r2, rest = s1 :: r2 ∧ e.parent.ID = s1.node_id) ∨
       (dir = false ∧ e.parent.ID = s0.orig_node.ID ∧
          ∃ s1 r2, rest = s1 :: r2 ∧ e.child.ID = s1.node_id))) ∨
    (∃ s0 rest e, st.stack = s0 :: rest ∧ e ∈ os.edges_remaining ∧
      e.child.ID = s0.orig_node.ID ∧ e.parent.ID ∈ os.nodes_remaining ∧
      e.remote = false ∧ a = .NODE e.tag e.parent ∧
      os' = ⟨os.edges_remaining.erase e, os.nodes_remaining.erase e.parent.ID⟩) ∨
    (∃ s0 rest e, st.stack = s0 :: rest ∧ e ∈ os.edges_remaining ∧
      e.parent.ID = s0.orig_node.ID ∧ e.child.implicit = true ∧
      e.child.ID ∈ os.nodes_remaining ∧ a = .IMPLICIT e.tag e.child ∧
      os' = ⟨os.edges_remaining.erase e, os.nodes_remaining.erase e.child.ID⟩) := by
  unfold get_action at h
  split at h
  · next hE =>
    simp only [Except.ok.injEq, Prod.mk.injEq] at h
    exact Or.inl ⟨h.1.symm, h.2.symm, by simpa using hE⟩
  · next hE =>
    split at h
    · next hstack =>
      unfold shiftOrFail at h
      split at h
      · simp at h
      · simp only [Except.ok.injEq, Prod.mk.injEq] at h
        exact Or.inr (Or.inl ⟨h.1.symm, h.2.symm⟩)
    · next s0 rest hstack =>
      dsimp only at h
      split at h
      · -- REDUCE
        simp only [Except.ok.injEq, Prod.mk.injEq] at h
        exact Or.inr (Or.inr (Or.inl ⟨h.1.symm, h.2.symm⟩))
      · split at h
        · -- buffer preference SHIFT
          simp only [Except.ok.injEq, Prod.mk.injEq] at h
          exact Or.inr (Or.inl ⟨h.1.symm, h.2.symm⟩)
        · -- binary / swap / unary
          split at h
          · -- binarySwap = some r
            next r hbs =>
            split at hbs
            · simp at hbs
            · next s1 r2 =>
              split at hbs
              · next dir e hbc =>
                simp only [Option.some.injEq] at hbs
                rw [← hbs] at h
                simp only [Except.ok.injEq, Prod.mk.injEq] at h
                obtain ⟨ha, hos⟩ := h
                rcases binaryChoice_some hbc with ⟨hdir, hmem, hpar⟩ | ⟨hdir, hmem, hchild⟩
                · subst hdir
                  refine Or.inr (Or.inr (Or.inr (Or.inr (Or.inl
                    ⟨s0, s1 :: r2, e, true, hstack, (mem_incomingOf.mp hmem).1,
                      ha.symm, hos.symm,
                      Or.inl ⟨rfl, (mem_incomingOf.mp hmem).2, s1, r2, rfl, hpar⟩⟩))))
                · subst hdir
                  refine Or.inr (Or.inr (Or.inr (Or.inr (Or.inl
                    ⟨s0, s1 :: r2, e, false, hstack, (mem_outgoingOf.mp hmem).1,
                      ha.symm, hos.symm,
                      Or.inr ⟨rfl, (mem_outgoingOf.mp hmem).2, s1, r2, rfl, hchild⟩⟩))))
              · split at hbs
                · -- SWAP
                  simp only [Option.some.injEq] at hbs
                  rw [← hbs] at h
                  simp only [Except.ok.injEq, Prod.mk.injEq] at h
                  exact Or.inr (Or.inr (Or.inr (Or.inl ⟨⟨_, h.1.symm⟩, h.2.symm⟩)))
                · simp at hbs
          · -- binarySwap = none: unary checks
            split at h
            · -- NODE
              next e hnc =>
              simp only [Except.ok.injEq, Prod.mk.injEq] at h
              obtain ⟨hmem, hns, hrem⟩ := nodeChoice_some hnc
              exact Or.inr (Or.inr (Or.inr (Or.inr (Or.inr (Or.inl
                ⟨s0, rest, e, hstack, (mem_incomingOf.mp hmem).1,
                  (mem_incomingOf.mp hmem).2, hns, hrem, h.1.symm, h.2.symm⟩)))))
            · -- IMPLICIT or SHIFT
              split at h
              · next e hic =>
                split at h
                · next hmemN =>
                  simp only [Except.ok.injEq, Prod.mk.injEq] at h
                  obtain ⟨hmem, himp⟩ := implicitChoice_some hic
                  exact Or.inr (Or.inr (Or.inr (Or.inr (Or.inr (Or.inr
                    ⟨s0, rest, e, hstack, (mem_outgoingOf.mp hmem).1,
                      (mem_outgoingOf.mp hmem).2, himp, hmemN, h.1.symm, h.2.symm⟩)))))
                · simp at h
              · unfold shiftOrFail at h
                split at h
                · simp at h
                · simp only [Except.ok.injEq, Prod.mk.injEq] at h
                  exact Or.inr (Or.inl ⟨h.1.symm, h.2.symm⟩)

/-- Full branch characterization of `get_action`: every call lands in
exactly one of the code's branches, with the guards of that branch. -/
theorem get_action_branches {c : Bool} {os : OracleState} {st : ParserState}
    {r : Except OracleErr (Action × OracleState)}
    (h : get_action c os st = r) :
    (os.edges_remaining.isEmpty = true ∧ r = .ok (.FINISH, os)) ∨
    (os.edges_remaining.isEmpty = false ∧ st.stack = [] ∧
      ((st.buffer = [] ∧
         r = .error (.noAction st.stack st.buffer os.nodes_remaining os.edges_remaining)) ∨
       (st.buffer ≠ [] ∧ r = .ok (.SHIFT, os)))) ∨
    (∃ s0 rest, st.stack = s0 :: rest ∧ os.edges_remaining.isEmpty = false ∧
      ((incE os s0).isEmpty && (outE os s0).isEmpty) = true ∧ r = .ok (.REDUCE, os)) ∨
    (∃ s0 rest, st.stack = s0 :: rest ∧ os.edges_remaining.isEmpty = false ∧
      ((incE os s0).isEmpty && (outE os s0).isEmpty) = false ∧
      ((bufferPref st.buffer (relE os s0) = true ∧ r = .ok (.SHIFT, os)) ∨
       (bufferPref st.buffer (relE os s0) = false ∧
         ((∃ s1 r2 dir e, rest = s1 :: r2 ∧
             binaryChoice (incE os s0) (outE os s0) s1 = some (dir, e) ∧
             r = .ok (mkBinaryAction dir e,
               ⟨os.edges_remaining.erase e, os.nodes_remaining⟩)) ∨
          (∃ s1 r2, rest = s1 :: r2 ∧
             binaryChoice (incE os s0) (outE os s0) s1 = none ∧
             sdE c os st s0 ≠ 0 ∧
             r = .ok (.SWAP (if c = true then some (sdE c os st s0) else none), os)) ∨
          ((rest = [] ∨ ∃ s1 r2, rest = s1 :: r2 ∧
              binaryChoice (incE os s0) (outE os s0) s1 = none ∧ sdE c os st s0 = 0) ∧
            ((∃ e, nodeChoice (incE os s0) os.nodes_remaining = some e ∧
               r = .ok (.NODE e.tag e.parent,
                 ⟨os.edges_remaining.erase e, os.nodes_remaining.erase e.parent.ID⟩)) ∨
             (nodeChoice (incE os s0) os.nodes_remaining = none ∧
               ((∃ e, implicitChoice (outE os s0) = some e ∧
                  ((e.child.ID ∈ os.nodes_remaining ∧
                     r = .ok (.IMPLICIT e.tag e.child,
                       ⟨os.edges_remaining.erase e, os.nodes_remaining.erase e.child.ID⟩)) ∨
                   (e.child.ID ∉ os.nodes_remaining ∧ r = .error .keyError))) ∨
                (implicitChoice (outE os s0) = none ∧
                  ((st.buffer = [] ∧
                     r = .error (.noAction st.stack st.buffer
                       os.nodes_remaining os.edges_remaining)) ∨
                   (st.buffer ≠ [] ∧ r = .ok (.SHIFT, os)))))))))))) := by
  unfold get_action at h
  split at h
  · next hE => exact Or.inl ⟨hE, h.symm⟩
  · next hE =>
    rw [Bool.not_eq_true] at hE
    split at h
    · next hstack =>
      unfold shiftOrFail at h
      split at h
      · next hbuf =>
        refine Or.inr (Or.inl ⟨hE, hstack, Or.inl ⟨hbuf, ?_⟩⟩)
        rw [← h, hstack, hbuf]
      · next hbuf =>
        refine Or.inr (Or.inl ⟨hE, hstack, Or.inr ⟨?_, h.symm⟩⟩)
        intro hb
        rw [hb] at hbuf
        exact hbuf rfl
    · next s0 rest hstack =>
      dsimp only at h
      split at h
      · next hred =>
        exact Or.inr (Or.inr (Or.inl ⟨s0, rest, hstack, hE, by simpa [incE, outE] using hred,
          h.symm⟩))
      · next hred =>
        have hred' : ((incE os s0).isEmpty && (outE os s0).isEmpty) = false := by
          simpa [incE, outE] using hred
        split at h
        · next hpref =>
          exact Or.inr (Or.inr (Or.inr ⟨s0, rest, hstack, hE, hred',
            Or.inl ⟨by simpa [incE, outE, relE] using hpref, h.symm⟩⟩))
        · next hpref =>
          have hpref' : bufferPref st.buffer (relE os s0) = false := by
            simpa [incE, outE, relE] using hpref
          split at h
          · next r' hbs =>
            split at hbs
            · simp at hbs
            · next s1 r2 =>
              split at hbs
              · next dir e hbc =>
                simp only [Option.some.injEq] at hbs
                rw [← hbs] at h
                exact Or.inr (Or.inr (Or.inr ⟨s0, s1 :: r2, hstack, hE, hred',
                  Or.inr ⟨hpref', Or.inl ⟨s1, r2, dir, e, rfl,
                    by simpa [incE, outE] using hbc, h.symm⟩⟩⟩))
              · next hbc =>
                split at hbs
                · next hsd =>
                  simp only [Option.some.injEq] at hbs
                  rw [← hbs] at h
                  refine Or.inr (Or.inr (Or.inr ⟨s0, s1 :: r2, hstack, hE, hred',
                    Or.inr ⟨hpref', Or.inr (Or.inl ⟨s1, r2, rfl,
                      by simpa [incE, outE] using hbc,
                      by simpa [sdE, relE, incE, outE] using hsd, ?_⟩)⟩⟩))
                  rw [← h]
                  simp [sdE, relE, incE, outE]
                · simp at hbs
          · next hbs =>
            have hnobin : rest = [] ∨ ∃ s1 r2, rest = s1 :: r2 ∧
                binaryChoice (incE os s0) (outE os s0) s1 = none ∧ sdE c os st s0 = 0 := by
              split at hbs
              · next => exact Or.inl rfl
              · next s1 r2 =>
                split at hbs
                · simp at hbs
                · next hbc =>
                  split at hbs
                  · simp at hbs
                  · next hsd =>
                    refine Or.inr ⟨s1, r2, rfl, by simpa [incE, outE] using hbc, ?_⟩
                    simp only [ne_eq, Decidable.not_not] at hsd
                    simpa [sdE, relE, incE, outE] using hsd
            split at h
            · next e hnc =>
              exact Or.inr (Or.inr (Or.inr ⟨s0, rest, hstack, hE, hred',
                Or.inr ⟨hpref', Or.inr (Or.inr ⟨hnobin,
                  Or.inl ⟨e, by simpa [incE] using hnc, h.symm⟩⟩)⟩⟩))
            · next hnc =>
              have hnc' : nodeChoice (incE os s0) os.nodes_remaining = none := by
                simpa [incE] using hnc
              split at h
              · next e hic =>
                have hic' : implicitChoice (outE os s0) = some e := by
                  simpa [outE] using hic
                split at h
                · next hmem =>
                  exact Or.inr (Or.inr (Or.inr ⟨s0, rest, hstack, hE, hred',
                    Or.inr ⟨hpref', Or.inr (Or.inr ⟨hnobin, Or.inr ⟨hnc',
                      Or.inl ⟨e, hic', Or.inl ⟨hmem, h.symm⟩⟩⟩⟩)⟩⟩))
                · next hmem =>
                  exact Or.inr (Or.inr (Or.inr ⟨s0, rest, hstack, hE, hred',
                    Or.inr ⟨hpref', Or.inr (Or.inr ⟨hnobin, Or.inr ⟨hnc',
                      Or.inl ⟨e, hic', Or.inr ⟨hmem, h.symm⟩⟩⟩⟩)⟩⟩))
              · next hic =>
                have hic' : implicitChoice (outE os s0) = none := by
                  simpa [outE] using hic
                unfold shiftOrFail at h
                split at h
                · next hbuf =>
                  exact Or.inr (Or.inr (Or.inr ⟨s0, rest, hstack, hE, hred',
                    Or.inr ⟨hpref', Or.inr (Or.inr ⟨hnobin, Or.inr ⟨hnc',
                      Or.inr ⟨hic', Or.inl ⟨hbuf, h.symm⟩⟩⟩⟩)⟩⟩))
                · next hbuf =>
                  refine Or.inr (Or.inr (Or.inr ⟨s0, rest, hstack, hE, hred',
                    Or.inr ⟨hpref', Or.inr (Or.inr ⟨hnobin, Or.inr ⟨hnc',
                      Or.inr ⟨hic', Or.inr ⟨?_, h.symm⟩⟩⟩⟩)⟩⟩))
                  intro hb
                  rw [hb] at hbuf
                  exact hbuf rfl

/-! ## Small facts about binary actions -/

lemma mkBinaryAction_isEdgeAction (dir : Bool) (e : Edge) :
    (mkBinaryAction dir e).isEdgeAction = true := by
  cases dir <;> rcases hr : e.remote <;>
    simp [mkBinaryAction, Action.isEdgeAction, hr]

lemma mkBinaryAction_kind (dir : Bool) (e : Edge) :
    (mkBinaryAction dir e).kind = if dir then ActionKind.RIGHT else ActionKind.LEFT := by
  cases dir <;> rcases hr : e.remote <;>
    simp [mkBinaryAction, Action.kind, hr]

lemma mkBinaryAction_ne_FINISH (dir : Bool) (e : Edge) :
    mkBinaryAction dir e ≠ .FINISH := by
  cases dir <;> rcases hr : e.remote <;> simp [mkBinaryAction, hr]

lemma mkBinaryAction_ne_REDUCE (dir : Bool) (e : Edge) :
    mkBinaryAction dir e ≠ .REDUCE := by
  cases dir <;> rcases hr : e.remote <;> simp [mkBinaryAction, hr]

lemma mkBinaryAction_ne_SWAP (dir : Bool) (e : Edge) (d : Option Nat) :
    mkBinaryAction dir e ≠ .SWAP d := by
  cases dir <;> rcases hr : e.remote <;> simp [mkBinaryAction, hr]

lemma mkBinaryAction_remote {dir : Bool} {e : Edge} {t : String} :
    (mkBinaryAction dir e = .RIGHT_EDGE t ∨ mkBinaryAction dir e = .LEFT_EDGE t →
      e.remote = false ∧ e.tag = t) ∧
    (mkBinaryAction dir e = .RIGHT_REMOTE t ∨ mkBinaryAction dir e = .LEFT_REMOTE t →
      e.remote = true ∧ e.tag = t) := by
  cases dir <;> rcases hr : e.remote <;> simp [mkBinaryAction, hr]

/-! ## C2: effect of each action on the remaining-sets -/

/-- C2: on every call of `get_action` that returns a NODE, IMPLICIT or
binary edge action, `edges_remaining` shrinks by exactly one element,
namely the discharged edge; on every call that returns SHIFT, REDUCE,
SWAP or FINISH both remaining-sets are unchanged; and across every
successful call both `edges_remaining` and `nodes_remaining` only ever
shrink. -/
theorem edges_remaining_step {c : Bool} {os : OracleState} {st : ParserState}
    {a : Action} {os' : OracleState}
    (h : get_action c os st = .ok (a, os')) :
    (a.isEdgeAction = true →
      ∃ e ∈ os.edges_remaining,
        os'.edges_remaining = os.edges_remaining.erase e ∧
        os'.edges_remaining.length + 1 = os.edges_remaining.length) ∧
    (a.isEdgeAction = false → os' = os) ∧
    os'.edges_remaining ⊆ os.edges_remaining ∧
    os'.nodes_remaining ⊆ os.nodes_remaining := by
  rcases get_action_ok_cases h with
    ⟨rfl, rfl, -⟩ | ⟨rfl, rfl⟩ | ⟨rfl, rfl⟩ | ⟨⟨d, rfl⟩, rfl⟩ |
    ⟨s0, rest, e, dir, hstack, hmem, rfl, rfl, -⟩ |
    ⟨s0, rest, e, hstack, hmem, -, -, -, rfl, rfl⟩ |
    ⟨s0, rest, e, hstack, hmem, -, -, -, rfl, rfl⟩
  · exact ⟨by simp [Action.isEdgeAction], fun _ => rfl,
      fun x hx => hx, fun x hx => hx⟩
  · exact ⟨by simp [Action.isEdgeAction], fun _ => rfl,
      fun x hx => hx, fun x hx => hx⟩
  · exact ⟨by simp [Action.isEdgeAction], fun _ => rfl,
      fun x hx => hx, fun x hx => hx⟩
  · exact ⟨by simp [Action.isEdgeAction], fun _ => rfl,
      fun x hx => hx, fun x hx => hx⟩
  · refine ⟨fun _ => ⟨e, hmem, rfl, ?_⟩,
      fun hf => absurd (mkBinaryAction_isEdgeAction dir e) (by simp [hf]),
      List.erase_subset _ _, fun x hx => hx⟩
    show (os.edges_remaining.erase e).length + 1 = os.edges_remaining.length
    have h1 := List.length_erase_of_mem hmem
    have h2 : 0 < os.edges_remaining.length := List.length_pos_of_mem hmem
    omega
  · refine ⟨fun _ => ⟨e, hmem, rfl, ?_⟩, by simp [Action.isEdgeAction],
      List.erase_subset _ _, List.erase_subset _ _⟩
    show (os.edges_remaining.erase e).length + 1 = os.edges_remaining.length
    have h1 := List.length_erase_of_mem hmem
    have h2 : 0 < os.edges_remaining.length := List.length_pos_of_mem hmem
    omega
  · refine ⟨fun _ => ⟨e, hmem, rfl, ?_⟩, by simp [Action.isEdgeAction],
      List.erase_subset _ _, List.erase_subset _ _⟩
    show (os.edges_remaining.erase e).length + 1 = os.edges_remaining.length
    have h1 := List.length_erase_of_mem hmem
    have h2 : 0 < os.edges_remaining.length := List.length_pos_of_mem hmem
    omega

/-- Witness for C2 at a concrete call (the IMPLICIT step of the two-call
C9 scenario). -/
theorem edges_remaining_step_witness :
    ((Action.IMPLICIT "E" ⟨"1.4", true⟩).isEdgeAction = true →
      ∃ e ∈ (oracleInit passI).edges_remaining,
        osI1.edges_remaining = (oracleInit passI).edges_remaining.erase e ∧
        osI1.edges_remaining.length + 1 = (oracleInit passI).edges_remaining.length) ∧
    ((Action.IMPLICIT "E" ⟨"1.4", true⟩).isEdgeAction = false →
      osI1 = oracleInit passI) ∧
    osI1.edges_remaining ⊆ (oracleInit passI).edges_remaining ∧
    osI1.nodes_remaining ⊆ (oracleInit passI).nodes_remaining :=
  edges_remaining_step (show get_action false (oracleInit passI) stI1 =
    .ok (.IMPLICIT "E" ⟨"1.4", true⟩, osI1) from rfl)

/-! ## C3: REDUCE characterization -/

/-- C3: `get_action` returns REDUCE if and only if `edges_remaining` is
non-empty, the stack is non-empty, and no remaining edge has the
top-of-stack's gold node as parent or as child. -/
theorem reduce_iff (c : Bool) (os : OracleState) (st : ParserState) :
    (∃ os', get_action c os st = .ok (.REDUCE, os')) ↔
    (os.edges_remaining ≠ [] ∧ ∃ s0 rest, st.stack = s0 :: rest ∧
      ∀ e ∈ os.edges_remaining,
        e.parent.ID ≠ s0.orig_node.ID ∧ e.child.ID ≠ s0.orig_node.ID) := by
  constructor
  · rintro ⟨os', h⟩
    rcases get_action_branches h with
      ⟨hE, hr⟩ |
      ⟨hE, hstack, ⟨hbuf, hr⟩ | ⟨hbuf, hr⟩⟩ |
      ⟨s0, rest, hstack, hE, hred, hr⟩ |
      ⟨s0, rest, hstack, hE, hred,
        ⟨hpref, hr⟩ | ⟨hpref,
          ⟨s1, r2, dir, e, hrest, hbc, hr⟩ |
          ⟨s1, r2, hrest, hbc, hsd, hr⟩ |
          ⟨hnobin,
            ⟨e, hnc, hr⟩ |
            ⟨hnc, ⟨e, hic, ⟨hm, hr⟩ | ⟨hm, hr⟩⟩ | ⟨hic, ⟨hbuf, hr⟩ | ⟨hbuf, hr⟩⟩⟩⟩⟩⟩
    · simp at hr
    · simp at hr
    · simp at hr
    · refine ⟨fun hnil => by simp [hnil] at hE, s0, rest, hstack, fun e he => ?_⟩
      rw [Bool.and_eq_true] at hred
      have hinc : incE os s0 = [] := List.isEmpty_iff.mp hred.1
      have hout : outE os s0 = [] := List.isEmpty_iff.mp hred.2
      exact ⟨outgoingOf_eq_nil.mp hout e he, incomingOf_eq_nil.mp hinc e he⟩
    · simp at hr
    · simp only [Except.ok.injEq, Prod.mk.injEq] at hr
      exact absurd hr.1.symm (mkBinaryAction_ne_REDUCE dir e)
    · simp at hr
    · simp at hr
    · simp at hr
    · simp at hr
    · simp at hr
    · simp at hr
  · rintro ⟨hne, s0, rest, hstack, hall⟩
    refine ⟨os, ?_⟩
    have hE : os.edges_remaining.isEmpty = false := by
      cases hh : os.edges_remaining <;> simp_all
    have hinc : incomingOf os.edges_remaining s0.orig_node = [] :=
      incomingOf_eq_nil.mpr (fun e he => (hall e he).2)
    have hout : outgoingOf os.edges_remaining s0.orig_node = [] :=
      outgoingOf_eq_nil.mpr (fun e he => (hall e he).1)
    unfold get_action
    rw [hstack]
    simp [hE, hinc, hout]

/-! ## C7: buffer-front SHIFT preference -/

/-- C7: if edges remain, the stack is non-empty, the top of stack has at
least one remaining incident gold edge, and the buffer front's node ID is
among the `related` IDs of those edges, then `get_action` returns SHIFT,
before the binary-edge, swap and unary checks are even reached. -/
theorem shift_preference {c : Bool} {os : OracleState} {st : ParserState}
    {s0 : StateNode} {rest : List StateNode} {b : StateNode} {brest : List StateNode}
    (hstack : st.stack = s0 :: rest) (hbuf : st.buffer = b :: brest)
    (hne : os.edges_remaining ≠ [])
    (hincident : incE os s0 ≠ [] ∨ outE os s0 ≠ [])
    (hrel : b.node_id ∈ relE os s0) :
    get_action c os st = .ok (.SHIFT, os) := by
  have hE : os.edges_remaining.isEmpty = false := by
    cases hh : os.edges_remaining <;> simp_all
  have hred : ((incomingOf os.edges_remaining s0.orig_node).isEmpty &&
      (outgoingOf os.edges_remaining s0.orig_node).isEmpty) = false := by
    rcases hincident with hi | hi
    · have : (incomingOf os.edges_remaining s0.orig_node).isEmpty = false := by
        cases hh : incomingOf os.edges_remaining s0.orig_node
        · exact absurd hh hi
        · simp
      simp [this]
    · have : (outgoingOf os.edges_remaining s0.orig_node).isEmpty = false := by
        cases hh : outgoingOf os.edges_remaining s0.orig_node
        · exact absurd hh hi
        · simp
      simp [this]
  have hpref : bufferPref st.buffer
      (relatedOf (incomingOf os.edges_remaining s0.orig_node)
        (outgoingOf os.edges_remaining s0.orig_node)) = true := by
    rw [hbuf]
    unfold bufferPref
    simpa [relE, incE, outE] using hrel
  unfold get_action
  rw [hstack]
  simp [hE, hred, hpref]

/-- Witness for C7 at a concrete state: `1.2` on top still has its edge
to the root, and the root sits at the buffer front. -/
theorem shift_preference_witness : get_action false osQ stQ = .ok (.SHIFT, osQ) :=
  shift_preference
    (show stQ.stack = ⟨"1.2", ⟨"1.2", false⟩⟩ :: [⟨"0.1", ⟨"0.1", false⟩⟩] from rfl)
    (show stQ.buffer = ⟨"1.1", rootN⟩ :: [] from rfl)
    (by decide) (Or.inl (by decide)) (by decide)

/-! ## C10: empty stack forces SHIFT -/

/-- C10: with an empty stack, remaining edges and a non-empty buffer,
`get_action` returns SHIFT; and REDUCE, binary edge, SWAP, NODE and
IMPLICIT actions are only ever returned when the stack is non-empty. -/
theorem empty_stack_shift (c : Bool) (os : OracleState) (st : ParserState) :
    (st.stack = [] → os.edges_remaining ≠ [] → st.buffer ≠ [] →
      get_action c os st = .ok (.SHIFT, os)) ∧
    (∀ a os', get_action c os st = .ok (a, os') →
      (a.kind = .REDUCE ∨ a.kind = .RIGHT ∨ a.kind = .LEFT ∨
        (∃ d, a.kind = .SWAP d) ∨ a.kind = .NODE ∨ a.kind = .IMPLICIT) →
      st.stack ≠ []) := by
  constructor
  · intro hstack hne hbuf
    have hE : os.edges_remaining.isEmpty = false := by
      cases hh : os.edges_remaining <;> simp_all
    unfold get_action
    rw [hstack]
    unfold shiftOrFail
    cases hb : st.buffer with
    | nil => exact absurd hb hbuf
    | cons b bs => simp [hE]
  · intro a os' h hk hstack
    rcases get_action_branches h with
      ⟨hE, hr⟩ |
      ⟨hE, hstk, ⟨hbuf, hr⟩ | ⟨hbuf, hr⟩⟩ |
      ⟨s0, rest, hstk, -⟩ |
      ⟨s0, rest, hstk, -⟩
    · simp only [Except.ok.injEq, Prod.mk.injEq] at hr
      rw [hr.1] at hk
      simp [Action.kind] at hk
    · simp at hr
    · simp only [Except.ok.injEq, Prod.mk.injEq] at hr
      rw [hr.1] at hk
      simp [Action.kind] at hk
    · rw [hstack] at hstk
      exact List.noConfusion hstk
    · rw [hstack] at hstk
      exact List.noConfusion hstk

/-- Witness for C10 at a concrete state with empty stack, one remaining
edge and a non-empty buffer. -/
theorem empty_stack_shift_witness :
    get_action false ⟨[edgeA], []⟩ stE = .ok (.SHIFT, ⟨[edgeA], []⟩) :=
  (empty_stack_shift false ⟨[edgeA], []⟩ stE).1 rfl (by decide) (by decide)

/-! ## C5: remote edges and the discharging action -/

/-- C5 counterexample: the remote gold edge `edgeR` (child `1.9` is
implicit) is discharged (erased from `edges_remaining`) by a plain
IMPLICIT action, because the IMPLICIT generator checks only
`e.child.attrib.get("implicit")` and never the edge's `remote` flag. -/
theorem remote_via_implicit_cex :
    get_action false osR stR = .ok (.IMPLICIT "G" ⟨"1.9", true⟩, ⟨[], []⟩) ∧
    edgeR ∈ osR.edges_remaining ∧ edgeR.remote = true ∧
    (⟨[], []⟩ : OracleState).edges_remaining = osR.edges_remaining.erase edgeR :=
  ⟨rfl, by decide, rfl, rfl⟩

/-- C5 amended: plain RIGHT/LEFT-EDGE discharges a non-remote edge,
RIGHT/LEFT-REMOTE discharges a remote edge, and NODE only ever discharges
a non-remote edge; but IMPLICIT guarantees only that the discharged
edge's child is implicit — it may discharge a remote edge. -/
theorem discharge_remote_flags {c : Bool} {os : OracleState} {st : ParserState}
    {a : Action} {os' : OracleState}
    (h : get_action c os st = .ok (a, os')) :
    (∀ t, (a = .RIGHT_EDGE t ∨ a = .LEFT_EDGE t) →
      ∃ e ∈ os.edges_remaining,
        os'.edges_remaining = os.edges_remaining.erase e ∧
        e.remote = false ∧ e.tag = t) ∧
    (∀ t, (a = .RIGHT_REMOTE t ∨ a = .LEFT_REMOTE t) →
      ∃ e ∈ os.edges_remaining,
        os'.edges_remaining = os.edges_remaining.erase e ∧
        e.remote = true ∧ e.tag = t) ∧
    (∀ t n, a = .NODE t n →
      ∃ e ∈ os.edges_remaining,
        os'.edges_remaining = os.edges_remaining.erase e ∧ e.remote = false) ∧
    (∀ t n, a = .IMPLICIT t n →
      ∃ e ∈ os.edges_remaining,
        os'.edges_remaining = os.edges_remaining.erase e ∧
        e.child.implicit = true) := by
  rcases get_action_ok_cases h with
    ⟨rfl, rfl, -⟩ | ⟨rfl, rfl⟩ | ⟨rfl, rfl⟩ | ⟨⟨d, rfl⟩, rfl⟩ |
    ⟨s0, rest, e, dir, hstack, hmem, rfl, rfl, -⟩ |
    ⟨s0, rest, e, hstack, hmem, hchild, hns, hrem, rfl, rfl⟩ |
    ⟨s0, rest, e, hstack, hmem, hpar, himp, hmn, rfl, rfl⟩
  · exact ⟨fun t ht => by rcases ht with ht | ht <;> exact Action.noConfusion ht,
      fun t ht => by rcases ht with ht | ht <;> exact Action.noConfusion ht,
      fun t n ht => Action.noConfusion ht, fun t n ht => Action.noConfusion ht⟩
  · exact ⟨fun t ht => by rcases ht with ht | ht <;> exact Action.noConfusion ht,
      fun t ht => by rcases ht with ht | ht <;> exact Action.noConfusion ht,
      fun t n ht => Action.noConfusion ht, fun t n ht => Action.noConfusion ht⟩
  · exact ⟨fun t ht => by rcases ht with ht | ht <;> exact Action.noConfusion ht,
      fun t ht => by rcases ht with ht | ht <;> exact Action.noConfusion ht,
      fun t n ht => Action.noConfusion ht, fun t n ht => Action.noConfusion ht⟩
  · exact ⟨fun t ht => by rcases ht with ht | ht <;> exact Action.noConfusion ht,
      fun t ht => by rcases ht with ht | ht <;> exact Action.noConfusion ht,
      fun t n ht => Action.noConfusion ht, fun t n ht => Action.noConfusion ht⟩
  · refine ⟨?_, ?_, ?_, ?_⟩
    · intro t ht
      obtain ⟨hrem, htag⟩ := (@mkBinaryAction_remote dir e t).1 ht
      exact ⟨e, hmem, rfl, hrem, htag⟩
    · intro t ht
      obtain ⟨hrem, htag⟩ := (@mkBinaryAction_remote dir e t).2 ht
      exact ⟨e, hmem, rfl, hrem, htag⟩
    · intro t n ht
      exfalso
      revert ht
      cases dir <;> rcases hr : e.remote <;> simp [mkBinaryAction, hr]
    · intro t n ht
      exfalso
      revert ht
      cases dir <;> rcases hr : e.remote <;> simp [mkBinaryAction, hr]
  · refine ⟨fun t ht => by rcases ht with ht | ht <;> exact Action.noConfusion ht,
      fun t ht => by rcases ht with ht | ht <;> exact Action.noConfusion ht,
      ?_, fun t n ht => Action.noConfusion ht⟩
    intro t n ht
    exact ⟨e, hmem, rfl, hrem⟩
  · refine ⟨fun t ht => by rcases ht with ht | ht <;> exact Action.noConfusion ht,
      fun t ht => by rcases ht with ht | ht <;> exact Action.noConfusion ht,
      fun t n ht => Action.noConfusion ht, ?_⟩
    intro t n ht
    exact ⟨e, hmem, rfl, himp⟩

/-- Witness for C5's amended theorem at the concrete IMPLICIT discharge
of `edgeR`. -/
theorem discharge_remote_flags_witness :
    (∀ t, ((Action.IMPLICIT "G" ⟨"1.9", true⟩) = .RIGHT_EDGE t ∨
           (Action.IMPLICIT "G" ⟨"1.9", true⟩) = .LEFT_EDGE t) →
      ∃ e ∈ osR.edges_remaining,
        (⟨[], []⟩ : OracleState).edges_remaining = osR.edges_remaining.erase e ∧
        e.remote = false ∧ e.tag = t) ∧
    (∀ t, ((Action.IMPLICIT "G" ⟨"1.9", true⟩) = .RIGHT_REMOTE t ∨
           (Action.IMPLICIT "G" ⟨"1.9", true⟩) = .LEFT_REMOTE t) →
      ∃ e ∈ osR.edges_remaining,
        (⟨[], []⟩ : OracleState).edges_remaining = osR.edges_remaining.erase e ∧
        e.remote = true ∧ e.tag = t) ∧
    (∀ t n, (Action.IMPLICIT "G" ⟨"1.9", true⟩) = .NODE t n →
      ∃ e ∈ osR.edges_remaining,
        (⟨[], []⟩ : OracleState).edges_remaining = osR.edges_remaining.erase e ∧
        e.remote = false) ∧
    (∀ t n, (Action.IMPLICIT "G" ⟨"1.9", true⟩) = .IMPLICIT t n →
      ∃ e ∈ osR.edges_remaining,
        (⟨[], []⟩ : OracleState).edges_remaining = osR.edges_remaining.erase e ∧
        e.child.implicit = true) :=
  discharge_remote_flags (show get_action false osR stR =
    .ok (.IMPLICIT "G" ⟨"1.9", true⟩, ⟨[], []⟩) from rfl)

/-! ## C9: safety of the unguarded removals -/

/-- C9 counterexample: on `passI` (an implicit node `1.4` with two
incoming gold edges) the first IMPLICIT discharge removes `1.4` from
`nodes_remaining`; the next call selects the second edge into `1.4` and
its unguarded `nodes_remaining.remove` fails (Python `KeyError`). -/
theorem implicit_keyerror_cex :
    get_action false (oracleInit passI) stI1 =
      .ok (.IMPLICIT "E" ⟨"1.4", true⟩, osI1) ∧
    get_action false osI1 stI2 = .error .keyError :=
  ⟨rfl, rfl⟩

/-- C9 amended: whenever `get_action` actually returns a NODE or IMPLICIT
action, the discharged edge was in `edges_remaining` and the created
node's ID was still in `nodes_remaining`; but the IMPLICIT branch never
tests the child's membership, and instead of returning it fails with
KeyError when the implicit child's ID has already been removed. -/
theorem unary_removals_present {c : Bool} {os : OracleState} {st : ParserState}
    {a : Action} {os' : OracleState}
    (h : get_action c os st = .ok (a, os')) :
    (∀ t n, a = .NODE t n →
      ∃ e ∈ os.edges_remaining, e.parent = n ∧ e.tag = t ∧
        n.ID ∈ os.nodes_remaining ∧
        os' = ⟨os.edges_remaining.erase e, os.nodes_remaining.erase n.ID⟩) ∧
    (∀ t n, a = .IMPLICIT t n →
      ∃ e ∈ os.edges_remaining, e.child = n ∧ e.tag = t ∧
        n.ID ∈ os.nodes_remaining ∧
        os' = ⟨os.edges_remaining.erase e, os.nodes_remaining.erase n.ID⟩) := by
  rcases get_action_ok_cases h with
    ⟨rfl, rfl, -⟩ | ⟨rfl, rfl⟩ | ⟨rfl, rfl⟩ | ⟨⟨d, rfl⟩, rfl⟩ |
    ⟨s0, rest, e, dir, hstack, hmem, rfl, rfl, -⟩ |
    ⟨s0, rest, e, hstack, hmem, hchild, hns, hrem, rfl, rfl⟩ |
    ⟨s0, rest, e, hstack, hmem, hpar, himp, hmn, rfl, rfl⟩
  · exact ⟨fun t n ht => Action.noConfusion ht, fun t n ht => Action.noConfusion ht⟩
  · exact ⟨fun t n ht => Action.noConfusion ht, fun t n ht => Action.noConfusion ht⟩
  · exact ⟨fun t n ht => Action.noConfusion ht, fun t n ht => Action.noConfusion ht⟩
  · exact ⟨fun t n ht => Action.noConfusion ht, fun t n ht => Action.noConfusion ht⟩
  · constructor
    · intro t n ht
      exfalso
      revert ht
      cases dir <;> rcases hr : e.remote <;> simp [mkBinaryAction, hr]
    · intro t n ht
      exfalso
      revert ht
      cases dir <;> rcases hr : e.remote <;> simp [mkBinaryAction, hr]
  · refine ⟨?_, fun t n ht => Action.noConfusion ht⟩
    intro t n ht
    injection ht with h1 h2
    subst h1
    subst h2
    exact ⟨e, hmem, rfl, rfl, hns, rfl⟩
  · refine ⟨fun t n ht => Action.noConfusion ht, ?_⟩
    intro t n ht
    injection ht with h1 h2
    subst h1
    subst h2
    exact ⟨e, hmem, rfl, rfl, hmn, rfl⟩

/-- Witness for C9's amended theorem at the first IMPLICIT call of the
`passI` scenario. -/
theorem unary_removals_present_witness :
    (∀ t n, (Action.IMPLICIT "E" ⟨"1.4", true⟩) = .NODE t n →
      ∃ e ∈ (oracleInit passI).edges_remaining, e.parent = n ∧ e.tag = t ∧
        n.ID ∈ (oracleInit passI).nodes_remaining ∧
        osI1 = ⟨(oracleInit passI).edges_remaining.erase e,
          (oracleInit passI).nodes_remaining.erase n.ID⟩) ∧
    (∀ t n, (Action.IMPLICIT "E" ⟨"1.4", true⟩) = .IMPLICIT t n →
      ∃ e ∈ (oracleInit passI).edges_remaining, e.child = n ∧ e.tag = t ∧
        n.ID ∈ (oracleInit passI).nodes_remaining ∧
        osI1 = ⟨(oracleInit passI).edges_remaining.erase e,
          (oracleInit passI).nodes_remaining.erase n.ID⟩) :=
  unary_removals_present (show get_action false (oracleInit passI) stI1 =
    .ok (.IMPLICIT "E" ⟨"1.4", true⟩, osI1) from rfl)

/-! ## C4: swap distance -/

/-- C4 counterexample: with compound swap enabled, `get_action` emits
SWAP with distance 1, yet the subset-of-deeper-stack condition (deeper
than position distance+2 from the top) fails at 1 and holds at 0 — the
emitted distance is one more than the largest value satisfying the
condition, not that largest value itself. -/
theorem swap_distance_cex :
    get_action true osS stS = .ok (.SWAP (some 1), osS) ∧
    swapCondStrict stS.stack (relE osS ⟨"1.4", ⟨"1.4", false⟩⟩) 0 ∧
    ¬ swapCondStrict stS.stack (relE osS ⟨"1.4", ⟨"1.4", false⟩⟩) 1 :=
  ⟨rfl, by unfold swapCondStrict; decide, by unfold swapCondStrict; decide⟩

/-- C4 amended: whenever SWAP is emitted the distance `sd` computed by
the while-loop satisfies: the loop guard holds at every value below `sd`
and fails at `sd` (so `sd` is one more than the maximal value for which
the guard — including the subset-of-`stack[:-d-2]` condition — holds);
the carried payload is `some sd` exactly when compound swap is enabled,
and with compound swap disabled the loop distance is exactly 1 and the
payload is `none` (a single-element swap). -/
theorem swap_distance_spec {c : Bool} {os : OracleState} {st : ParserState}
    {d : Option Nat} {os' : OracleState}
    (h : get_action c os st = .ok (.SWAP d, os')) :
    ∃ s0 s1 r2, st.stack = s0 :: s1 :: r2 ∧
      d = (if c = true then some (sdE c os st s0) else none) ∧
      1 ≤ sdE c os st s0 ∧
      (∀ k, k < sdE c os st s0 → loopCond c st.stack (relE os s0) k = true) ∧
      loopCond c st.stack (relE os s0) (sdE c os st s0) = false ∧
      (c = false → sdE c os st s0 = 1) := by
  rcases get_action_branches h with
    ⟨hE, hr⟩ |
    ⟨hE, hstack, ⟨hbuf, hr⟩ | ⟨hbuf, hr⟩⟩ |
    ⟨s0, rest, hstack, hE, hred, hr⟩ |
    ⟨s0, rest, hstack, hE, hred,
      ⟨hpref, hr⟩ | ⟨hpref,
        ⟨s1, r2, dir, e, hrest, hbc, hr⟩ |
        ⟨s1, r2, hrest, hbc, hsd, hr⟩ |
        ⟨hnobin,
          ⟨e, hnc, hr⟩ |
          ⟨hnc, ⟨e, hic, ⟨hm, hr⟩ | ⟨hm, hr⟩⟩ | ⟨hic, ⟨hbuf, hr⟩ | ⟨hbuf, hr⟩⟩⟩⟩⟩⟩
  · simp at hr
  · simp at hr
  · simp at hr
  · simp at hr
  · simp at hr
  · simp only [Except.ok.injEq, Prod.mk.injEq] at hr
    exact absurd hr.1.symm (mkBinaryAction_ne_SWAP dir e d)
  · subst hrest
    simp only [Except.ok.injEq, Prod.mk.injEq, Action.SWAP.injEq] at hr
    refine ⟨s0, s1, r2, hstack, hr.1, ?_, ?_, ?_, ?_⟩
    · omega
    · intro k hk
      exact swapLoop_cond_below st.stack.length 0 k (Nat.zero_le k) hk
    · exact swapLoop_cond_final st.stack.length 0 (by omega)
    · intro hc
      subst hc
      by_contra hne1
      have h2 : 2 ≤ sdE false os st s0 := by omega
      have hcond := swapLoop_cond_below st.stack.length 0 1 (Nat.zero_le 1)
        (show 1 < swapLoop false st.stack (relE os s0) st.stack.length 0 from h2)
      simp [loopCond] at hcond
  · simp at hr
  · simp at hr
  · simp at hr
  · simp at hr
  · simp at hr

/-- Witness for C4's amended theorem at the concrete compound-swap call
on `osS`/`stS`. -/
theorem swap_distance_spec_witness :
    ∃ s0 s1 r2, stS.stack = s0 :: s1 :: r2 ∧
      (some 1 : Option Nat) = (if true = true then some (sdE true osS stS s0) else none) ∧
      1 ≤ sdE true osS stS s0 ∧
      (∀ k, k < sdE true osS stS s0 → loopCond true stS.stack (relE osS s0) k = true) ∧
      loopCond true stS.stack (relE osS s0) (sdE true osS stS s0) = false ∧
      (true = false → sdE true osS stS s0 = 1) :=
  swap_distance_spec (show get_action true osS stS = .ok (.SWAP (some 1), osS) from rfl)

/-! ## C6: the fatal no-action error -/

/-- C6 counterexample: a call with remaining edges and a non-empty buffer
(so, by C6, "exactly one Action is returned") that returns no action at
all: the IMPLICIT branch's unguarded removal fails with KeyError. -/
theorem keyerror_not_noaction_cex :
    get_action false osI1 stI2 = .error .keyError ∧
    osI1.edges_remaining ≠ [] ∧ stI2.buffer ≠ [] :=
  ⟨rfl, by decide, by decide⟩

/-- C6 amended: `get_action` raises the "No action is possible" error
if and only if edges remain, the buffer is empty and no stack-based rule
applies, and that error carries the stack, the buffer and the remaining
gold nodes and edges; in every other case it either returns exactly one
action or fails with the IMPLICIT branch's KeyError. -/
theorem error_characterization (c : Bool) (os : OracleState) (st : ParserState) :
    (get_action c os st =
        .error (.noAction st.stack st.buffer os.nodes_remaining os.edges_remaining) ↔
      (os.edges_remaining ≠ [] ∧ st.buffer = [] ∧ noStackRule c os st)) ∧
    (get_action c os st = .error .keyError ∨
     get_action c os st =
        .error (.noAction st.stack st.buffer os.nodes_remaining os.edges_remaining) ∨
     ∃ a os', get_action c os st = .ok (a, os')) := by
  constructor
  · constructor
    · intro h
      rcases get_action_branches h with
        ⟨hE, hr⟩ |
        ⟨hE, hstk, ⟨hbuf, hr⟩ | ⟨hbuf, hr⟩⟩ |
        ⟨s0, rest, hstk, hE, hred, hr⟩ |
        ⟨s0, rest, hstk, hE, hred,
          ⟨hpref, hr⟩ | ⟨hpref,
            ⟨s1, r2, dir, e, hrest, hbc, hr⟩ |
            ⟨s1, r2, hrest, hbc, hsd, hr⟩ |
            ⟨hnobin,
              ⟨e, hnc, hr⟩ |
              ⟨hnc, ⟨e, hic, ⟨hm, hr⟩ | ⟨hm, hr⟩⟩ |
                ⟨hic, ⟨hbuf, hr⟩ | ⟨hbuf, hr⟩⟩⟩⟩⟩⟩
      · simp at hr
      · refine ⟨fun hnil => by simp [hnil] at hE, hbuf, ?_⟩
        unfold noStackRule
        rw [hstk]
        exact trivial
      · simp at hr
      · simp at hr
      · simp at hr
      · simp at hr
      · simp at hr
      · simp at hr
      · simp at hr
      · simp at hr
      · refine ⟨fun hnil => by simp [hnil] at hE, hbuf, ?_⟩
        unfold noStackRule
        rw [hstk]
        refine ⟨?_, ?_, ?_, hnc, hic⟩
        · rintro ⟨hi, ho⟩
          rw [hi, ho] at hred
          simp at hred
        · exact hpref
        · rcases hnobin with rfl | ⟨s1, r2, hrest, hbc, hsd⟩
          · exact trivial
          · rw [hrest]
            exact ⟨hbc, hsd⟩
      · simp at hr
    · rintro ⟨hne, hbuf, hrule⟩
      have hE : os.edges_remaining.isEmpty = false := by
        cases hh : os.edges_remaining <;> simp_all
      obtain ⟨stk, buf⟩ := st
      dsimp only at hbuf hrule ⊢
      subst hbuf
      cases stk with
      | nil =>
        unfold get_action shiftOrFail
        simp [hE]
      | cons s0 rest =>
        unfold noStackRule at hrule
        dsimp only at hrule
        obtain ⟨hredP, hpref, hbin, hnc, hic⟩ := hrule
        have hred : ((incomingOf os.edges_remaining s0.orig_node).isEmpty &&
            (outgoingOf os.edges_remaining s0.orig_node).isEmpty) = false := by
          rcases hi : (incomingOf os.edges_remaining s0.orig_node).isEmpty <;>
            rcases ho : (outgoingOf os.edges_remaining s0.orig_node).isEmpty <;>
            simp_all [incE, outE, List.isEmpty_iff]
        have hpref' : bufferPref ([] : List StateNode)
            (relatedOf (incomingOf os.edges_remaining s0.orig_node)
              (outgoingOf os.edges_remaining s0.orig_node)) = false := rfl
        have hnc' : nodeChoice (incomingOf os.edges_remaining s0.orig_node)
            os.nodes_remaining = none := hnc
        have hic' : implicitChoice (outgoingOf os.edges_remaining s0.orig_node) = none := hic
        cases rest with
        | nil =>
          unfold get_action shiftOrFail
          simp [hE, hred, hpref', hnc', hic']
        | cons s1 r2 =>
          obtain ⟨hbc, hsd⟩ := hbin
          have hbc' : binaryChoice (incomingOf os.edges_remaining s0.orig_node)
              (outgoingOf os.edges_remaining s0.orig_node) s1 = none := hbc
          have hsd' : swapLoop c (s0 :: s1 :: r2)
              (relatedOf (incomingOf os.edges_remaining s0.orig_node)
                (outgoingOf os.edges_remaining s0.orig_node))
              (r2.length + 1 + 1) 0 = 0 := by
            have hsd0 : swapLoop c (s0 :: s1 :: r2)
                (relatedOf (incomingOf os.edges_remaining s0.orig_node)
                  (outgoingOf os.edges_remaining s0.orig_node))
                (s0 :: s1 :: r2).length 0 = 0 := hsd
            simpa using hsd0
          unfold get_action shiftOrFail
          simp [hE, hred, hpref', hbc', hsd', hnc', hic']
  · rcases get_action_branches
      (rfl : get_action c os st = get_action c os st) with
      ⟨hE, hr⟩ |
      ⟨hE, hstk, ⟨hbuf, hr⟩ | ⟨hbuf, hr⟩⟩ |
      ⟨s0, rest, hstk, hE, hred, hr⟩ |
      ⟨s0, rest, hstk, hE, hred,
        ⟨hpref, hr⟩ | ⟨hpref,
          ⟨s1, r2, dir, e, hrest, hbc, hr⟩ |
          ⟨s1, r2, hrest, hbc, hsd, hr⟩ |
          ⟨hnobin,
            ⟨e, hnc, hr⟩ |
            ⟨hnc, ⟨e, hic, ⟨hm, hr⟩ | ⟨hm, hr⟩⟩ |
              ⟨hic, ⟨hbuf, hr⟩ | ⟨hbuf, hr⟩⟩⟩⟩⟩⟩
    · exact Or.inr (Or.inr ⟨_, _, hr⟩)
    · exact Or.inr (Or.inl hr)
    · exact Or.inr (Or.inr ⟨_, _, hr⟩)
    · exact Or.inr (Or.inr ⟨_, _, hr⟩)
    · exact Or.inr (Or.inr ⟨_, _, hr⟩)
    · exact Or.inr (Or.inr ⟨_, _, hr⟩)
    · exact Or.inr (Or.inr ⟨_, _, hr⟩)
    · exact Or.inr (Or.inr ⟨_, _, hr⟩)
    · exact Or.inr (Or.inr ⟨_, _, hr⟩)
    · exact Or.inl hr
    · exact Or.inr (Or.inl hr)
    · exact Or.inr (Or.inr ⟨_, _, hr⟩)

/-! ## C1: replaying the full action sequence -/

lemma finish_inv {c : Bool} {os : OracleState} {st : ParserState} {os' : OracleState}
    (h : get_action c os st = .ok (.FINISH, os')) :
    os.edges_remaining = [] ∧ os' = os := by
  rcases get_action_ok_cases h with
    ⟨-, rfl, hnil⟩ | ⟨ha, -⟩ | ⟨ha, -⟩ | ⟨⟨d, ha⟩, -⟩ |
    ⟨s0, rest, e, dir, -, -, ha, -, -⟩ |
    ⟨s0, rest, e, -, -, -, -, -, ha, -⟩ |
    ⟨s0, rest, e, -, -, -, -, -, ha, -⟩
  · exact ⟨hnil, rfl⟩
  · exact Action.noConfusion ha
  · exact Action.noConfusion ha
  · exact Action.noConfusion ha
  · exact absurd ha.symm (mkBinaryAction_ne_FINISH dir e)
  · exact Action.noConfusion ha
  · exact Action.noConfusion ha

/-- One successful step: the edge created by the action (if any), together
with the keys of the remaining edges after the step, is a permutation of
the keys of the remaining edges before the step. -/
lemma created_discharge_perm {c : Bool} {os : OracleState} {st : ParserState}
    {a : Action} {os' : OracleState}
    (h : get_action c os st = .ok (a, os')) :
    (createdOf a st ++ os'.edges_remaining.map edgeKey).Perm
      (os.edges_remaining.map edgeKey) := by
  rcases get_action_ok_cases h with
    ⟨rfl, rfl, -⟩ | ⟨rfl, rfl⟩ | ⟨rfl, rfl⟩ | ⟨⟨d, rfl⟩, rfl⟩ |
    ⟨s0, rest, e, dir, hstack, hmem,rfl, rfl,
      ⟨rfl, hchild, s1, r2, rfl, hpar⟩ | ⟨rfl, hpar, s1, r2, rfl, hchild⟩⟩ |
    ⟨s0, rest, e, hstack, hmem, hchild, hns, hrem, rfl, rfl⟩ |
    ⟨s0, rest, e, hstack, hmem, hpar, himp, hmn, rfl, rfl⟩
  · simp [createdOf]
  · simp [createdOf]
  · simp [createdOf]
  · simp [createdOf]
  · have hp := (List.perm_cons_erase hmem).map edgeKey
    rcases hrem : e.remote <;>
      simpa [createdOf, mkBinaryAction, hrem, hstack, edgeKey, hpar, hchild]
        using hp.symm
  · have hp := (List.perm_cons_erase hmem).map edgeKey
    rcases hrem2 : e.remote <;>
      simpa [createdOf, mkBinaryAction, hrem2, hstack, edgeKey, hpar, hchild]
        using hp.symm
  · have hp := (List.perm_cons_erase hmem).map edgeKey
    simpa [createdOf, hstack, edgeKey, hchild] using hp.symm
  · have hp := (List.perm_cons_erase hmem).map edgeKey
    simpa [createdOf, hstack, edgeKey, hpar] using hp.symm

/-- Invariant of the driver loop: a finished run's created edges are a
permutation of the already-created edges plus the keys of the edges that
were still remaining at the start. -/
lemma runOracle_finished_perm {c : Bool} :
    ∀ (fuel : Nat) (os : OracleState) (st : ParserState) (created out : List CEdge),
      runOracle c fuel os st created = .finished out →
      out.Perm (created ++ os.edges_remaining.map edgeKey) := by
  intro fuel
  induction fuel with
  | zero =>
    intro os st created out h
    simp [runOracle] at h
  | succ n ih =>
    intro os st created out h
    rw [runOracle] at h
    cases hga : get_action c os st with
    | error e =>
      rw [hga] at h
      simp at h
    | ok v =>
      obtain ⟨a, os'⟩ := v
      rw [hga] at h
      dsimp only at h
      by_cases hfin : a = .FINISH
      · subst hfin
        rw [if_pos rfl] at h
        obtain rfl : created = out := by simpa using h
        obtain ⟨hnil, rfl⟩ := finish_inv hga
        simp [hnil]
      · rw [if_neg hfin] at h
        have htail := ih os' (applyAction a st) (created ++ createdOf a st) out h
        have hstep := created_discharge_perm hga
        rw [List.append_assoc] at htail
        exact htail.trans (List.Perm.append_left created hstep)

/-- C1 counterexample: on the gold passage `passF` (one gold edge from
the root to `1.3`, no terminals) the oracle never produces a complete
action sequence: the run fails with the "No action is possible" error,
so no replay reconstructs the gold edge set. -/
theorem replay_cex :
    ¬ ∃ (fuel : Nat) (created : List CEdge),
        runOracle false fuel (oracleInit passF) (initState passF) [] =
          .finished created ∧
        created.Perm (passF.edges.map edgeKey) := by
  rintro ⟨fuel, created, h, -⟩
  rcases fuel with - | n
  · simp [runOracle] at h
  · have hfail : runOracle false (n + 1) (oracleInit passF) (initState passF) [] =
        .failed (.noAction [⟨ROOT_ID, ⟨ROOT_ID, false⟩⟩] [] ["1.3"]
          [⟨rootN, ⟨"1.3", false⟩, "H", false⟩]) := rfl
    rw [hfail] at h
    exact RunResult.noConfusion h

/-- C1 amended: for every gold passage whose oracle-driven run reaches
FINISH, the multiset of edges created during the replay (in gold-ID space
via the `orig_node` correspondence) is exactly the multiset of gold
edges: no gold edge is missing and no extra edge is created. -/
theorem replay_reconstructs {c : Bool} {p : Passage} {fuel : Nat} {created : List CEdge}
    (h : runOracle c fuel (oracleInit p) (initState p) [] = .finished created) :
    created.Perm (p.edges.map edgeKey) := by
  have hp := runOracle_finished_perm fuel (oracleInit p) (initState p) [] created h
  simpa [oracleInit] using hp

/-- Witness for C1's amended theorem: the complete run on the passage
`passW` (root —H→ `1.2` —T→ terminal `0.1`) finishes, and the two created
edges are a permutation of the gold edges. -/
theorem replay_reconstructs_witness :
    ([⟨"1.2", "0.1", "T"⟩, ⟨"1.1", "1.2", "H"⟩] : List CEdge).Perm
      (passW.edges.map edgeKey) :=
  @replay_reconstructs false passW 10 [⟨"1.2", "0.1", "T"⟩, ⟨"1.1", "1.2", "H"⟩] rfl

/-! ## C8: determinism and container order -/

lemma bool_eq_of_iff {a b : Bool} (h : a = true ↔ b = true) : a = b := by
  cases a <;> cases b <;> simp_all

lemma find?_none_perm {l₁ l₂ : List Edge} (h : l₁.Perm l₂) {p : Edge → Bool}
    (hf : l₁.find? p = none) : l₂.find? p = none := by
  rw [List.find?_eq_none] at hf ⊢
  intro x hx
  exact hf x (h.mem_iff.mpr hx)

lemma find?_some_perm {l₁ l₂ : List Edge} (h : l₁.Perm l₂) {p : Edge → Bool} {e : Edge}
    (hf : l₁.find? p = some e) : ∃ e2, l₂.find? p = some e2 := by
  have hs : (l₂.find? p).isSome := List.find?_isSome.mpr
    ⟨e, h.mem_iff.mp (List.mem_of_find?_eq_some hf), List.find?_some hf⟩
  exact Option.isSome_iff_exists.mp hs

lemma binaryChoice_none_perm {inc₁ inc₂ out₁ out₂ : List Edge}
    (hi : inc₁.Perm inc₂) (ho : out₁.Perm out₂) (s1 : StateNode)
    (h : binaryChoice inc₁ out₁ s1 = none) : binaryChoice inc₂ out₂ s1 = none := by
  unfold binaryChoice at h ⊢
  cases hf1 : inc₁.find? (fun e => e.parent.ID == s1.node_id) with
  | some e => rw [hf1] at h; simp at h
  | none =>
    rw [hf1] at h
    cases hg1 : out₁.find? (fun e => e.child.ID == s1.node_id) with
    | some e => rw [hg1] at h; simp at h
    | none =>
      rw [find?_none_perm hi hf1, find?_none_perm ho hg1]

lemma binaryChoice_some_perm {inc₁ inc₂ out₁ out₂ : List Edge}
    (hi : inc₁.Perm inc₂) (ho : out₁.Perm out₂) (s1 : StateNode) {dir : Bool} {e : Edge}
    (h : binaryChoice inc₁ out₁ s1 = some (dir, e)) :
    ∃ e2, binaryChoice inc₂ out₂ s1 = some (dir, e2) := by
  unfold binaryChoice at h ⊢
  cases hf1 : inc₁.find? (fun e => e.parent.ID == s1.node_id) with
  | some e1 =>
    rw [hf1] at h
    simp only [Option.some.injEq, Prod.mk.injEq] at h
    obtain ⟨h1, h2⟩ := h
    subst h1
    subst h2
    obtain ⟨e2, hf2⟩ := find?_some_perm hi hf1
    exact ⟨e2, by rw [hf2]⟩
  | none =>
    rw [hf1] at h
    cases hg1 : out₁.find? (fun e => e.child.ID == s1.node_id) with
    | some e1 =>
      rw [hg1] at h
      simp only [Option.some.injEq, Prod.mk.injEq] at h
      obtain ⟨h1, h2⟩ := h
      subst h1
      subst h2
      obtain ⟨e2, hg2⟩ := find?_some_perm ho hg1
      exact ⟨e2, by rw [find?_none_perm hi hf1, hg2]⟩
    | none => rw [hg1] at h; simp at h

lemma loopCond_of_mem_iff {c : Bool} {s : List StateNode} {r₁ r₂ : List String}
    (hm : ∀ x, x ∈ r₁ ↔ x ∈ r₂) (d : Nat) :
    loopCond c s r₁ d = loopCond c s r₂ d := by
  unfold loopCond
  congr 1
  refine bool_eq_of_iff ?_
  rw [List.all_eq_true, List.all_eq_true]
  exact ⟨fun H x hx => H x ((hm x).mpr hx), fun H x hx => H x ((hm x).mp hx)⟩

lemma swapLoop_of_mem_iff {c : Bool} {s : List StateNode} {r₁ r₂ : List String}
    (hm : ∀ x, x ∈ r₁ ↔ x ∈ r₂) :
    ∀ fuel d, swapLoop c s r₁ fuel d = swapLoop c s r₂ fuel d := by
  intro fuel
  induction fuel with
  | zero => intro d; rfl
  | succ n ih =>
    intro d
    simp only [swapLoop]
    rw [loopCond_of_mem_iff hm d, ih (d + 1)]

/-- `branchKind` is a pure function of the remaining-edge multiset (not
its container order) and the remaining-node set and parser state. -/
lemma branchKind_perm {c : Bool} {os₁ os₂ : OracleState} (st : ParserState)
    (hperm : os₁.edges_remaining.Perm os₂.edges_remaining)
    (hn : os₁.nodes_remaining = os₂.nodes_remaining) :
    branchKind c os₁ st = branchKind c os₂ st := by
  have hE : os₁.edges_remaining.isEmpty = os₂.edges_remaining.isEmpty :=
    bool_eq_of_iff (by
      rw [List.isEmpty_iff_length_eq_zero, List.isEmpty_iff_length_eq_zero,
        hperm.length_eq])
  unfold branchKind
  rw [hE]
  by_cases hEE : os₂.edges_remaining.isEmpty = true
  · rw [if_pos hEE, if_pos hEE]
  · rw [if_neg hEE, if_neg hEE]
    cases hstk : st.stack with
    | nil => rfl
    | cons s0 rest =>
      have hinc : (incE os₁ s0).Perm (incE os₂ s0) := hperm.filter _
      have hout : (outE os₁ s0).Perm (outE os₂ s0) := hperm.filter _
      have hrelp : (relE os₁ s0).Perm (relE os₂ s0) :=
        (hout.map _).append (hinc.map _)
      have hIncE : (incE os₁ s0).isEmpty = (incE os₂ s0).isEmpty :=
        bool_eq_of_iff (by
          rw [List.isEmpty_iff_length_eq_zero, List.isEmpty_iff_length_eq_zero,
            hinc.length_eq])
      have hOutE : (outE os₁ s0).isEmpty = (outE os₂ s0).isEmpty :=
        bool_eq_of_iff (by
          rw [List.isEmpty_iff_length_eq_zero, List.isEmpty_iff_length_eq_zero,
            hout.length_eq])
      have hbp : bufferPref st.buffer (relE os₁ s0) =
          bufferPref st.buffer (relE os₂ s0) := by
        unfold bufferPref
        cases st.buffer with
        | nil => rfl
        | cons b bs => exact decide_eq_decide.mpr hrelp.mem_iff
      have hsd : sdE c os₁ st s0 = sdE c os₂ st s0 := by
        unfold sdE
        exact swapLoop_of_mem_iff (fun x => hrelp.mem_iff) st.stack.length 0
      have hunary : unaryKind os₁ s0 = unaryKind os₂ s0 := by
        unfold unaryKind
        rw [hn]
        cases hnc1 : nodeChoice (incE os₁ s0) os₂.nodes_remaining with
        | some e =>
          obtain ⟨e2, hnc2⟩ := find?_some_perm hinc hnc1
          rw [show nodeChoice (incE os₂ s0) os₂.nodes_remaining = some e2 from hnc2]
        | none =>
          rw [show nodeChoice (incE os₂ s0) os₂.nodes_remaining = none from
            find?_none_perm hinc hnc1]
          cases hic1 : implicitChoice (outE os₁ s0) with
          | some e =>
            obtain ⟨e2, hic2⟩ := find?_some_perm hout hic1
            rw [show implicitChoice (outE os₂ s0) = some e2 from hic2]
          | none =>
            rw [show implicitChoice (outE os₂ s0) = none from
              find?_none_perm hout hic1]
      dsimp only
      rw [hIncE, hOutE, hbp]
      by_cases hred : ((incE os₂ s0).isEmpty && (outE os₂ s0).isEmpty) = true
      · rw [if_pos hred, if_pos hred]
      · rw [if_neg hred, if_neg hred]
        by_cases hpref : bufferPref st.buffer (relE os₂ s0) = true
        · rw [if_pos hpref, if_pos hpref]
        · rw [if_neg hpref, if_neg hpref]
          cases rest with
          | nil => exact hunary
          | cons s1 r2 =>
            dsimp only
            cases hbc1 : binaryChoice (incE os₁ s0) (outE os₁ s0) s1 with
            | some de =>
              obtain ⟨dir, e⟩ := de
              obtain ⟨e2, hbc2⟩ := binaryChoice_some_perm hinc hout s1 hbc1
              rw [hbc2]
            | none =>
              rw [binaryChoice_none_perm hinc hout s1 hbc1]
              rw [hsd]
              by_cases hz : sdE c os₂ st s0 ≠ 0
              · rw [if_pos hz, if_pos hz]
              · rw [if_neg hz, if_neg hz]
                exact hunary

/-- The kind of every action returned by `get_action` is `branchKind`. -/
lemma kind_eq_branchKind {c : Bool} {os : OracleState} {st : ParserState}
    {a : Action} {os' : OracleState}
    (h : get_action c os st = .ok (a, os')) :
    a.kind = branchKind c os st := by
  rcases get_action_branches h with
    ⟨hE, hr⟩ |
    ⟨hE, hstk, ⟨hbuf, hr⟩ | ⟨hbuf, hr⟩⟩ |
    ⟨s0, rest, hstk, hE, hred, hr⟩ |
    ⟨s0, rest, hstk, hE, hred,
      ⟨hpref, hr⟩ | ⟨hpref,
        ⟨s1, r2, dir, e, hrest, hbc, hr⟩ |
        ⟨s1, r2, hrest, hbc, hsd, hr⟩ |
        ⟨hnobin,
          ⟨e, hnc, hr⟩ |
          ⟨hnc, ⟨e, hic, ⟨hm, hr⟩ | ⟨hm, hr⟩⟩ |
            ⟨hic, ⟨hbuf, hr⟩ | ⟨hbuf, hr⟩⟩⟩⟩⟩⟩
  · simp only [Except.ok.injEq, Prod.mk.injEq] at hr
    rw [hr.1]
    simp [branchKind, hE, Action.kind]
  · simp at hr
  · simp only [Except.ok.injEq, Prod.mk.injEq] at hr
    rw [hr.1]
    simp [branchKind, hE, hstk, Action.kind]
  · simp only [Except.ok.injEq, Prod.mk.injEq] at hr
    rw [hr.1]
    simp [branchKind, hE, hstk, hred, Action.kind]
  · simp only [Except.ok.injEq, Prod.mk.injEq] at hr
    rw [hr.1]
    simp [branchKind, hE, hstk, hred, hpref, Action.kind]
  · simp only [Except.ok.injEq, Prod.mk.injEq] at hr
    rw [hr.1]
    subst hrest
    rw [mkBinaryAction_kind]
    simp [branchKind, hE, hstk, hred, hpref, hbc]
  · simp only [Except.ok.injEq, Prod.mk.injEq] at hr
    rw [hr.1]
    subst hrest
    simp [branchKind, hE, hstk, hred, hpref, hbc, hsd, Action.kind]
  · simp only [Except.ok.injEq, Prod.mk.injEq] at hr
    rw [hr.1]
    rcases hnobin with rfl | ⟨s1, r2, hrest, hbc, hsd⟩
    · simp [branchKind, unaryKind, hE, hstk, hred, hpref, hnc, Action.kind]
    · subst hrest
      simp [branchKind, unaryKind, hE, hstk, hred, hpref, hbc, hsd, hnc, Action.kind]
  · simp only [Except.ok.injEq, Prod.mk.injEq] at hr
    rw [hr.1]
    rcases hnobin with rfl | ⟨s1, r2, hrest, hbc, hsd⟩
    · simp [branchKind, unaryKind, hE, hstk, hred, hpref, hnc, hic, Action.kind]
    · subst hrest
      simp [branchKind, unaryKind, hE, hstk, hred, hpref, hbc, hsd, hnc, hic,
        Action.kind]
  · simp at hr
  · simp at hr
  · simp only [Except.ok.injEq, Prod.mk.injEq] at hr
    rw [hr.1]
    rcases hnobin with rfl | ⟨s1, r2, hrest, hbc, hsd⟩
    · simp [branchKind, unaryKind, hE, hstk, hred, hpref, hnc, hic, Action.kind]
    · subst hrest
      simp [branchKind, unaryKind, hE, hstk, hred, hpref, hbc, hsd, hnc, hic,
        Action.kind]

/-- C8 counterexample: two permutation-equivalent remaining-edge
containers (equal as sets), same nodes and parser state, on which
`get_action` returns different actions — the chosen edge follows the
container's iteration order. -/
theorem order_dependence_cex :
    ([edgeA, edgeB] : List Edge).Perm [edgeB, edgeA] ∧
    get_action false ⟨[edgeA, edgeB], []⟩ stP =
      .ok (.RIGHT_EDGE "A", ⟨[edgeB], []⟩) ∧
    get_action false ⟨[edgeB, edgeA], []⟩ stP =
      .ok (.RIGHT_EDGE "B", ⟨[edgeA], []⟩) ∧
    (Action.RIGHT_EDGE "A") ≠ (Action.RIGHT_EDGE "B") :=
  ⟨List.Perm.swap edgeB edgeA [], rfl, rfl, by simp⟩

/-- C8 amended: `get_action` is a pure function of its inputs, and for
permutation-equivalent remaining-edge containers (with equal
`nodes_remaining` and parser state) any two successful calls return
actions of the same kind (same discriminator, direction and swap
distance); only the edge-dependent payload (tag, remote flag, created
node) can differ with iteration order. -/
theorem kind_order_invariant {c : Bool} {os₁ os₂ : OracleState} {st : ParserState}
    (hperm : os₁.edges_remaining.Perm os₂.edges_remaining)
    (hn : os₁.nodes_remaining = os₂.nodes_remaining)
    {a₁ a₂ : Action} {os₁' os₂' : OracleState}
    (h₁ : get_action c os₁ st = .ok (a₁, os₁'))
    (h₂ : get_action c os₂ st = .ok (a₂, os₂')) :
    a₁.kind = a₂.kind := by
  rw [kind_eq_branchKind h₁, kind_eq_branchKind h₂, branchKind_perm st hperm hn]

/-- Witness for C8's amended theorem at the two permuted containers of
the counterexample. -/
theorem kind_order_invariant_witness :
    (Action.RIGHT_EDGE "A").kind = (Action.RIGHT_EDGE "B").kind :=
  @kind_order_invariant false ⟨[edgeA, edgeB], []⟩ ⟨[edgeB, edgeA], []⟩ stP
    (List.Perm.swap edgeB edgeA []) rfl
    (.RIGHT_EDGE "A") (.RIGHT_EDGE "B") ⟨[edgeB], []⟩ ⟨[edgeA], []⟩ rfl rfl

/-- Witness for C3 at a concrete state: the node `9.9` on top of the
stack touches no remaining edge, so REDUCE is returned. -/
theorem reduce_iff_witness :
    ∃ os', get_action false ⟨[edgeA], []⟩ ⟨[⟨"9.9", ⟨"9.9", false⟩⟩], []⟩ =
      .ok (.REDUCE, os') :=
  (reduce_iff false ⟨[edgeA], []⟩ ⟨[⟨"9.9", ⟨"9.9", false⟩⟩], []⟩).mpr
    ⟨by decide, ⟨"9.9", ⟨"9.9", false⟩⟩, [], rfl, by decide⟩

/-- Witness for C6 at the concrete passage `passF`: edges remain, the
buffer is empty and no stack rule applies, so the very first call raises
the "No action is possible" error with the full diagnostic payload. -/
theorem error_characterization_witness :
    get_action false (oracleInit passF) (initState passF) =
      .error (.noAction (initState passF).stack (initState passF).buffer
        (oracleInit passF).nodes_remaining (oracleInit passF).edges_remaining) :=
  (error_characterization false (oracleInit passF) (initState passF)).1.mpr
    ⟨by decide, rfl, ⟨by decide, rfl, trivial, rfl, rfl⟩⟩

end UCCA
